import Mathlib

/-!
Verification of the HDF read/write mapping layer (`fits2hdf/io/hdfio.py`).

The embedding models:
* scalar header/attribute values as `PyVal` (numeric or text — the two scalar
  shapes the mapping layer moves around);
* an HDF5 container as a tree of groups and datasets, each carrying an
  attribute list (`HNode`, `HFile`); attribute values are stored as the
  one-or-more-element arrays the source wraps them in (`np.array([v])`);
* the in-memory IDI unit-list model as `IdiUnit` lists;
* fallible operations as `Except String`; a raised-and-unhandled Python
  exception is an `Except.error`.

CPython 2 dictionaries keyed by small non-negative integers (the POSITION
tags `1..n` and COLUMN_ID tags `0..n-1` this format writes) iterate in
hash-slot order, which for such dense key sets is ascending key order, with
duplicate insertions resolved last-write-wins.  `pyDictItems` embeds exactly
that iteration behaviour; for non-integer keys (never produced by the writer)
an arbitrary documented total order is used.

Group and dataset names are modelled as flat strings: HDF5 path semantics
(names containing `/`) are outside the mapping layer's contract, which treats
a unit name directly as a group name.
-/

/-- Scalar value moved between IDI headers and container attributes:
either a (Python/NumPy) integer-like number or a text string. -/
inductive PyVal where
  | int : Int → PyVal
  | str : String → PyVal
  deriving DecidableEq, Repr

/-- Python-2 inter-type comparison as used by `np.min`/`np.max` and by
sorted iteration: numbers compare below strings, numbers by value,
strings lexicographically. -/
def pvLe : PyVal → PyVal → Bool
  | .int a, .int b => decide (a ≤ b)
  | .int _, .str _ => true
  | .str _, .int _ => false
  | .str a, .str b => decide (a ≤ b)

/-- Binary minimum under `pvLe` (the reduction step of `np.min`). -/
def pvMin (a b : PyVal) : PyVal := if pvLe b a then b else a

/-- Binary maximum under `pvLe` (the reduction step of `np.max`). -/
def pvMax (a b : PyVal) : PyVal := if pvLe a b then b else a

/-- Lookup in a name-keyed association list (h5py attribute/child access
`obj[k]`, returning `none` where Python raises `KeyError`). -/
def getAssoc {α : Type} : List (String × α) → String → Option α
  | [], _ => none
  | p :: rest, k => if p.1 = k then some p.2 else getAssoc rest k

/-- Membership test on the keys of a name-keyed association list
(`k in obj`). -/
def hasKey {α : Type} : List (String × α) → String → Bool
  | [], _ => false
  | p :: rest, k => p.1 = k || hasKey rest k

/-- Assignment `obj[k] = v` on a name-keyed association list: replaces the
existing entry in place, otherwise appends (h5py attribute assignment /
dataset creation order). -/
def setAssoc {α : Type} (l : List (String × α)) (k : String) (v : α) : List (String × α) :=
  if hasKey l k then l.map (fun p => if p.1 = k then (k, v) else p) else l ++ [(k, v)]

/-- Python `str.endswith`, via character-list suffix testing. -/
def pyEndsWith (s suff : String) : Bool := suff.data.isSuffixOf s.data

/-- Insertion `d[k] = v` into a CPython dict modelled as an association
list with unique keys: overwrite in place, else append. -/
def dictInsert {α : Type} : List (PyVal × α) → PyVal → α → List (PyVal × α)
  | [], k, v => [(k, v)]
  | p :: rest, k, v => if p.1 = k then (k, v) :: rest else p :: dictInsert rest k v

/-- Dict built by successive insertions (last write wins per key). -/
def dictOfPairs {α : Type} (ps : List (PyVal × α)) : List (PyVal × α) :=
  ps.foldl (fun acc p => dictInsert acc p.1 p.2) []

/-- Ordered insertion by key under `pvLe`. -/
def insertByKey {α : Type} (p : PyVal × α) : List (PyVal × α) → List (PyVal × α)
  | [] => [p]
  | q :: qs => if pvLe p.1 q.1 then p :: q :: qs else q :: insertByKey p qs

/-- Insertion sort by key under `pvLe`. -/
def sortByKey {α : Type} : List (PyVal × α) → List (PyVal × α)
  | [] => []
  | p :: ps => insertByKey p (sortByKey ps)

/-- Iteration order of `d.items()` for a CPython 2 dict populated by the
given insertions.  For the dense small-integer key sets produced by this
format (POSITION `1..n`, COLUMN_ID `0..n-1`) each key `k` occupies hash
slot `k` of a table larger than `k`, so slot-order iteration visits keys
ascending; duplicate insertions are last-write-wins.  For other key shapes
(never written by the exporter) the same ascending order under `pvLe` is
used as the modelled iteration order. -/
def pyDictItems {α : Type} (ps : List (PyVal × α)) : List (PyVal × α) :=
  sortByKey (dictOfPairs ps)

/-- Payload of a container dataset: either a plain N-dimensional typed
array (shape plus values) or a composite/record array (named fields, as
used by the legacy single-dataset table layout). -/
inductive HData where
  | plain (dims : List Nat) (flat : List PyVal)
  | records (fields : List (String × List PyVal))
  deriving Repr

/-- Node of the container tree: a dataset or a group, each with an
attribute list mapping names to one-or-more-element value arrays. -/
inductive HNode where
  | dataset (attrs : List (String × List PyVal)) (d : HData)
  | group (attrs : List (String × List PyVal)) (children : List (String × HNode))
  deriving Repr

/-- Contents of an HDF5 file: root attributes plus the top-level children. -/
structure HFile where
  attrs : List (String × List PyVal)
  root : List (String × HNode)
  deriving Repr

/-- Attribute list of a node (both datasets and groups carry `.attrs`). -/
def nodeAttrs : HNode → List (String × List PyVal)
  | .dataset a _ => a
  | .group a _ => a

/-- Number of array dimensions (`.ndim`); a record array is 1-dimensional. -/
def ndim : HData → Nat
  | .plain dims _ => dims.length
  | .records _ => 1

/-- NumPy `np.min` over an array: error on an empty array (`ValueError`)
or a structured array (`TypeError`), else the least element under the
Python-2 value order. -/
def npMin : HData → Except String PyVal
  | .records _ => .error "TypeError: cannot reduce structured array"
  | .plain _ [] => .error "ValueError: zero-size array reduction"
  | .plain _ (x :: xs) => .ok (xs.foldl pvMin x)

/-- NumPy `np.max` over an array, mirroring `npMin`. -/
def npMax : HData → Except String PyVal
  | .records _ => .error "TypeError: cannot reduce structured array"
  | .plain _ [] => .error "ValueError: zero-size array reduction"
  | .plain _ (x :: xs) => .ok (xs.foldl pvMax x)

/-- IDI table column: name, typed data array and an optional physical
unit value (`None`, or a scalar — a string in practice). -/
structure IdiColumn where
  name : String
  data : HData
  unit : Option PyVal
  deriving Repr

/-- Variant part of an IDI header/data unit: Primary (no data), Table
(ordered columns) or Image (one array). -/
inductive IdiHdu where
  | primary
  | table (columns : List IdiColumn)
  | image (data : HData)
  deriving Repr

/-- IDI header/data unit: name, variant payload, header mapping and the
optional COMMENT/HISTORY text blocks (lists of scalar lines). -/
structure IdiUnit where
  name : String
  hdu : IdiHdu
  header : List (String × PyVal)
  comment : Option (List PyVal)
  history : Option (List PyVal)
  deriving Repr

/-- Python truthiness of an optional text block: `None` and the empty
list are falsy. -/
def pyTruthyList : Option (List PyVal) → Bool
  | none => false
  | some l => !l.isEmpty

/-- Python truthiness of an optional scalar (`if dval.unit:`): `None`,
the empty string and the number zero are falsy. -/
def pyTruthyVal : Option PyVal → Bool
  | none => false
  | some (.str s) => !(s == "")
  | some (.int n) => !(n == 0)

/-- Python `str(v)` on a scalar value. -/
def pyStr : PyVal → String
  | .str s => s
  | .int n => toString n

/-- Container-reserved attribute names (`restricted_hdf_keywords` in
hdfio.py, line 21). -/
def restricted_hdf_keywords : List String := ["CLASS", "SUBCLASS", "POSITION"]

/-- Keyword classification test of `write_headers` (hdfio.py lines 46-51):
a key is skipped when it is a paired-comment key (`_COMMENT` suffix), a
table-structural key (5-character prefix in the restricted table set,
`TDIM` prefix, or `TFIELDS`), a basic standard key, or a container-reserved
key.  The two static FITS keyword sets live in `fitsio.py`, outside the
mapping layer; they are taken as parameters `rtk` and `rhk`. -/
def isRestrictedKey (rtk rhk : List String) (key : String) : Bool :=
  pyEndsWith key "_COMMENT"
    || rtk.contains (key.take 5) || key.take 4 == "TDIM" || key == "TFIELDS"
    || rhk.contains key
    || restricted_hdf_keywords.contains key

/-- Header copying of `write_headers` (hdfio.py lines 38-56): for each
header entry, look up its paired comment (defaulting to the empty string
when absent), skip restricted keys, and write user keys as a one-element
array attribute together with a `<KEY>_COMMENT` attribute. -/
def write_headers (rtk rhk : List String) (attrs : List (String × List PyVal))
    (hdr : List (String × PyVal)) : List (String × List PyVal) :=
  hdr.foldl (fun acc kv =>
    let comment : PyVal := (getAssoc hdr (kv.1 ++ "_COMMENT")).getD (.str "")
    if isRestrictedKey rtk rhk kv.1 then acc
    else setAssoc (setAssoc acc kv.1 [kv.2]) (kv.1 ++ "_COMMENT") [comment]) attrs

/-- Per-column datasets of the `DATA_GROUP` table layout (hdfio.py lines
263-279): one dataset per column in table order, tagged `CLASS=COLUMN`
and `COLUMN_ID` equal to the 0-based running counter, plus a `UNITS`
attribute when the unit value is truthy.  A duplicate column name makes
dataset creation raise; the error is re-raised after logging the unit
and column names (lines 280-282). -/
def exportColumns : List IdiColumn → Nat → List (String × HNode) →
    List (String × HNode) × Option String
  | [], _, acc => (acc, none)
  | c :: cs, n, acc =>
    if hasKey acc c.name then
      (acc, some ("unable to create dataset " ++ c.name))
    else
      let a1 := setAssoc (setAssoc [] "CLASS" [PyVal.str "COLUMN"]) "COLUMN_ID"
        [PyVal.int (Int.ofNat n)]
      let a2 := if pyTruthyVal c.unit then
          setAssoc a1 "UNITS" [PyVal.str (pyStr (c.unit.getD (PyVal.str "")))]
        else a1
      exportColumns cs (n + 1) (acc ++ [(c.name, HNode.dataset a2 c.data)])

/-- COMMENT/HISTORY datasets appended to a unit group when the text is
truthy (hdfio.py lines 308-311). -/
def addCommentHistory (children : List (String × HNode)) (u : IdiUnit) :
    List (String × HNode) :=
  let c1 := if pyTruthyList u.comment then
      children ++ [("COMMENT",
        HNode.dataset [] (.plain [(u.comment.getD []).length] (u.comment.getD [])))]
    else children
  if pyTruthyList u.history then
    c1 ++ [("HISTORY",
      HNode.dataset [] (.plain [(u.history.getD []).length] (u.history.getD [])))]
  else c1

/-- Image DATA dataset (hdfio.py lines 285-294): tagged `CLASS=IMAGE`
with a fixed `IMAGE_VERSION`; an exactly 2-dimensional array is further
tagged `IMAGE_SUBCLASS=IMAGE_GRAYSCALE` with an `IMAGE_MINMAXRANGE`
attribute holding `np.min` and `np.max` of the data.  On an empty array
the `np.min` reduction raises after the subclass tag is already set. -/
def exportImage (arr : HData) : HNode × Option String :=
  let a1 := setAssoc (setAssoc [] "CLASS" [PyVal.str "IMAGE"]) "IMAGE_VERSION"
    [PyVal.str "1.2"]
  if ndim arr = 2 then
    let a2 := setAssoc a1 "IMAGE_SUBCLASS" [PyVal.str "IMAGE_GRAYSCALE"]
    match npMin arr, npMax arr with
    | .ok mn, .ok mx => (HNode.dataset (setAssoc a2 "IMAGE_MINMAXRANGE" [mn, mx]) arr, none)
    | .error e, _ => (HNode.dataset a2 arr, some e)
    | _, .error e => (HNode.dataset a2 arr, some e)
  else (HNode.dataset a1 arr, none)

/-- One unit's group as built by the export loop body (hdfio.py lines
217-311): `CLASS=HDU` and `POSITION` tags, the variant-specific DATA
node (per-column group for tables — `table_version1` is `False`; single
dataset for images; nothing for primaries), user header attributes, and
optional COMMENT/HISTORY datasets.  The second component is the pending
exception when a dispatch step raised, with the group left in its
partially-written state. -/
def exportUnit (rtk rhk : List String) (u : IdiUnit) (pos : Nat) : HNode × Option String :=
  let gattrs0 := setAssoc (setAssoc [] "CLASS" [PyVal.str "HDU"]) "POSITION"
    [PyVal.int (Int.ofNat pos)]
  match u.hdu with
  | .table cols =>
    let r := exportColumns cols 0 []
    let dataNode := HNode.group (setAssoc [] "CLASS" [PyVal.str "DATA_GROUP"]) r.1
    match r.2 with
    | some e => (HNode.group gattrs0 [("DATA", dataNode)], some e)
    | none =>
      (HNode.group (write_headers rtk rhk gattrs0 u.header)
        (addCommentHistory [("DATA", dataNode)] u), none)
  | .image arr =>
    let r := exportImage arr
    match r.2 with
    | some e => (HNode.group gattrs0 [("DATA", r.1)], some e)
    | none =>
      (HNode.group (write_headers rtk rhk gattrs0 u.header)
        (addCommentHistory [("DATA", r.1)] u), none)
  | .primary =>
    (HNode.group (write_headers rtk rhk gattrs0 u.header) (addCommentHistory [] u), none)

/-- Export loop over the unit list (hdfio.py lines 212-311): positions
are the 1-based running counter; `create_group` raises on a duplicate
group name; the first raised exception aborts the loop, leaving the
groups written so far (including the partially-written failing group)
in the file. -/
def exportUnits (rtk rhk : List String) : List IdiUnit → Nat → List (String × HNode) →
    List (String × HNode) × Except String Unit
  | [], _, acc => (acc, .ok ())
  | u :: us, hid, acc =>
    if hasKey acc u.name then (acc, .error ("unable to create group " ++ u.name))
    else
      let r := exportUnit rtk rhk u (hid + 1)
      match r.2 with
      | some e => (acc ++ [(u.name, r.1)], .error e)
      | none => exportUnits rtk rhk us (hid + 1) (acc ++ [(u.name, r.1)])

/-- Argument passed to `export_hdf`: either an actual `IdiHdulist` or a
value of any other runtime type. -/
inductive PyArg where
  | hdulist (units : List IdiUnit)
  | other (desc : String)

/-- Outcome of `export_hdf`: the contents at the destination path after
the call, whether the h5py file handle was ever opened, whether it was
closed, and the normal/exceptional result. -/
structure ExportResult where
  file : Option HFile
  opened : Bool
  closed : Bool
  res : Except String Unit
  deriving Repr

/-- Export entry point (hdfio.py lines 185-313): the input must be an
`IdiHdulist`, checked before any I/O, else a `RuntimeError`; the
destination is then opened in truncating write mode `'w'` (line 204),
discarding any prior contents; the root is tagged `CLASS=HDFITS`; units
are exported in list order; `h.close()` runs only after a complete
normal pass — an exception propagates without closing the handle. -/
def export_hdf (rtk rhk : List String) (arg : PyArg) (prior : Option HFile) : ExportResult :=
  match arg with
  | .other _ =>
    { file := prior, opened := false, closed := false,
      res := .error "This function must be run on an IdiHdulist object" }
  | .hdulist units =>
    let fattrs := setAssoc [] "CLASS" [PyVal.str "HDFITS"]
    let r := exportUnits rtk rhk units 0 []
    { file := some ⟨fattrs, r.1⟩, opened := true,
      closed := match r.2 with | .ok _ => true | .error _ => false,
      res := r.2 }

/-- Header reconstruction in the reader (hdfio.py lines 90-93): every
group attribute whose key is not container-reserved becomes a header
entry, taking the scalar first element of the attribute array
(`IndexError` on an empty array). -/
def readHVals : List (String × List PyVal) → Except String (List (String × PyVal))
  | [] => .ok []
  | (k, vs) :: rest =>
    if restricted_hdf_keywords.contains k then readHVals rest
    else
      match vs with
      | [] => .error "IndexError: attribute value is empty"
      | v :: _ => (readHVals rest).map (fun h => (k, v) :: h)

/-- Text lines of a COMMENT/HISTORY child as consumed by the unit
constructors; a non-plain child contributes no lines in this model. -/
def nodeText : HNode → List PyVal
  | .dataset _ (.plain _ flat) => flat
  | .dataset _ (.records _) => []
  | .group _ _ => []

/-- Position collection of the reader (hdfio.py lines 80-83): for every
top-level child, read `attrs["POSITION"][0]` — with no surrounding
try/except, a missing attribute (`KeyError`) or an empty attribute array
(`IndexError`) aborts the whole read. -/
def collectPositions : List (String × HNode) → Except String (List (PyVal × String))
  | [] => .ok []
  | (gname, node) :: rest =>
    match getAssoc (nodeAttrs node) "POSITION" with
    | none => .error ("KeyError: POSITION of " ++ gname)
    | some [] => .error "IndexError: attribute value is empty"
    | some (p :: _) => (collectPositions rest).map (fun l => (p, gname) :: l)

/-- Composite-table column loop (hdfio.py lines 121-133): for each field
index, `FIELD_i_NAME` and `FIELD_i_UNITS` are read without a fallback
(missing one is a hard `KeyError`), the named field is extracted from the
record array and appended as a column. -/
def readFieldCols (dattrs : List (String × List PyVal))
    (fields : List (String × List PyVal)) : Nat → Nat → Except String (List IdiColumn)
  | _, 0 => .ok []
  | i, r + 1 =>
    match getAssoc dattrs ("FIELD_" ++ toString i ++ "_NAME") with
    | none => .error ("KeyError: FIELD_" ++ toString i ++ "_NAME")
    | some [] => .error "IndexError: attribute value is empty"
    | some (nm :: _) =>
      match getAssoc dattrs ("FIELD_" ++ toString i ++ "_UNITS") with
      | none => .error ("KeyError: FIELD_" ++ toString i ++ "_UNITS")
      | some [] => .error "IndexError: attribute value is empty"
      | some (un :: _) =>
        match nm with
        | .int _ => .error "TypeError: field name must be a string"
        | .str s =>
          match getAssoc fields s with
          | none => .error ("KeyError: no field " ++ s)
          | some coldata =>
            (readFieldCols dattrs fields (i + 1) r).map
              (fun cols => ⟨s, .plain [coldata.length] coldata, some un⟩ :: cols)

/-- COLUMN_ID collection for the per-column layout (hdfio.py lines
143-148): read `attrs["COLUMN_ID"][0]` of every child of DATA, with no
fallback — a missing id is a hard `KeyError`. -/
def collectColIds : List (String × HNode) → Except String (List (PyVal × String))
  | [] => .ok []
  | (cname, cnode) :: rest =>
    match getAssoc (nodeAttrs cnode) "COLUMN_ID" with
    | none => .error ("KeyError: COLUMN_ID of " ++ cname)
    | some [] => .error "IndexError: attribute value is empty"
    | some (p :: _) => (collectColIds rest).map (fun l => (p, cname) :: l)

/-- Full-array slice `obj[:]`, defined on datasets only. -/
def sliceAll : HNode → Except String HData
  | .dataset _ d => .ok d
  | .group _ _ => .error "TypeError: a group cannot be sliced"

/-- Per-column read loop (hdfio.py lines 152-163): iterate the recovered
column order; the `UNITS` attribute is read under a bare `except` (any
failure yields `None`), `COLUMN_ID` is re-read without one, and the
column dataset is sliced and appended. -/
def readGroupCols (dchildren : List (String × HNode)) :
    List (PyVal × String) → Except String (List IdiColumn)
  | [] => .ok []
  | (_, cname) :: rest =>
    match getAssoc dchildren cname with
    | none => .error ("KeyError: " ++ cname)
    | some cnode =>
      let colUnits : Option PyVal :=
        match getAssoc (nodeAttrs cnode) "UNITS" with
        | some (v :: _) => some v
        | _ => none
      match getAssoc (nodeAttrs cnode) "COLUMN_ID" with
      | none => .error ("KeyError: COLUMN_ID of " ++ cname)
      | some [] => .error "IndexError: attribute value is empty"
      | some _ =>
        match sliceAll cnode with
        | .error e => .error e
        | .ok d =>
          (readGroupCols dchildren rest).map (fun cols => ⟨cname, d, colUnits⟩ :: cols)

/-- Reading of one unit group (hdfio.py lines 85-176): rebuild the header
from non-reserved attributes, pick up COMMENT/HISTORY children, then
dispatch on the DATA child's `CLASS` tag.  The first component is the
unit to attach (`none` in the unrecognized-class branch, which attaches
nothing); the second collects warnings.  A top-level child that is a
dataset rather than a group fails when the reader indexes it by name. -/
def readGroup (node : HNode) (gname : String) : Except String (Option IdiUnit × List String) :=
  match node with
  | .dataset dattrs _ =>
    match readHVals dattrs with
    | .error e => .error e
    | .ok _ => .error ("ValueError: " ++ gname ++ " is not a group")
  | .group gattrs children =>
    match readHVals gattrs with
    | .error e => .error e
    | .ok hvals =>
      let comment := (getAssoc children "COMMENT").map nodeText
      let history := (getAssoc children "HISTORY").map nodeText
      match getAssoc children "DATA" with
      | none => .ok (some ⟨gname, .primary, hvals, comment, history⟩, [])
      | some dnode =>
        match getAssoc (nodeAttrs dnode) "CLASS" with
        | none => .error ("KeyError: CLASS of DATA in " ++ gname)
        | some clsVals =>
          match clsVals.head? with
          | some (.str "TABLE") =>
            match dnode with
            | .group _ _ => .error "AttributeError: a group has no dtype"
            | .dataset _ (.plain _ _) => .error "TypeError: object of type NoneType has no len"
            | .dataset dattrs (.records fields) =>
              match readFieldCols dattrs fields 0 fields.length with
              | .error e => .error e
              | .ok cols => .ok (some ⟨gname, .table cols, hvals, comment, history⟩, [])
          | some (.str "DATA_GROUP") =>
            match dnode with
            | .dataset _ _ => .error "AttributeError: a dataset has no keys"
            | .group _ dchildren =>
              match collectColIds dchildren with
              | .error e => .error e
              | .ok pairs =>
                match readGroupCols dchildren (pyDictItems pairs) with
                | .error e => .error e
                | .ok cols => .ok (some ⟨gname, .table cols, hvals, comment, history⟩, [])
          | some (.str "IMAGE") =>
            match sliceAll dnode with
            | .error e => .error e
            | .ok d => .ok (some ⟨gname, .image d, hvals, comment, history⟩, [])
          | _ => .ok (none, ["Cannot understand data class of " ++ gname])

/-- Main read loop over the recovered unit order (hdfio.py lines 85-176).
After each group's dispatch the trailing debug statement evaluates
`hdulist[gname].header`; when the dispatch attached nothing (the
unrecognized-class branch) and no earlier unit bears that name, this
lookup raises `KeyError` and aborts the read. -/
def readUnits (root : List (String × HNode)) :
    List (PyVal × String) → List IdiUnit → List String →
    Except String (List IdiUnit) × List String
  | [], acc, ws => (.ok acc, ws)
  | (_, gname) :: rest, acc, ws =>
    match getAssoc root gname with
    | none => (.error ("KeyError: " ++ gname), ws)
    | some node =>
      match readGroup node gname with
      | .error e => (.error e, ws)
      | .ok (u?, w) =>
        let acc2 := match u? with
          | some u => acc ++ [u]
          | none => acc
        let ws2 := ws ++ w
        if acc2.any (fun v => v.name == gname) then readUnits root rest acc2 ws2
        else (.error ("KeyError: " ++ gname), ws2)

/-- Outcome of `read_hdf`: the returned unit list or the propagated
exception, the warnings emitted, and whether the file handle was closed. -/
structure ReadResult where
  res : Except String (List IdiUnit)
  warnings : List String
  closed : Bool
  deriving Repr

/-- Read entry point (hdfio.py lines 58-182): a missing or non-HDFITS
root `CLASS` tag only warns; unit order is recovered from the POSITION
tags (iterated in the CPython-2 dict order, ascending for this format's
dense integer tags); `h.close()` runs only after a complete normal pass —
an exception propagates without closing the handle. -/
def read_hdf (f : HFile) : ReadResult :=
  let w0 : List String :=
    match getAssoc f.attrs "CLASS" with
    | none => ["No CLASS defined in HDF5 file.", "Not an HDFITS file."]
    | some vs =>
      if vs.any (fun v => decide (v = PyVal.str "HDFITS")) then []
      else ["Not an HDFITS file."]
  match collectPositions f.root with
  | .error e => { res := .error e, warnings := w0, closed := false }
  | .ok pairs =>
    match readUnits f.root (pyDictItems pairs) [] w0 with
    | (.error e, ws) => { res := .error e, warnings := ws, closed := false }
    | (.ok units, ws) => { res := .ok units, warnings := ws, closed := true }

/-! ## Association-list lemmas -/

theorem getAssoc_cons {α : Type} (p : String × α) (l : List (String × α)) (k : String) :
    getAssoc (p :: l) k = if p.1 = k then some p.2 else getAssoc l k := rfl

theorem hasKey_append {α : Type} (l₁ l₂ : List (String × α)) (k : String) :
    hasKey (l₁ ++ l₂) k = (hasKey l₁ k || hasKey l₂ k) := by
  induction l₁ with
  | nil => simp [hasKey]
  | cons p rest ih => by_cases h : p.1 = k <;> simp [hasKey, h, ih]

theorem getAssoc_eq_none_of_hasKey_false {α : Type} {l : List (String × α)} {k : String}
    (h : hasKey l k = false) : getAssoc l k = none := by
  induction l with
  | nil => rfl
  | cons p rest ih =>
    simp only [hasKey, Bool.or_eq_false_iff] at h
    simp only [getAssoc, if_neg (by simpa using h.1)]
    exact ih h.2

theorem hasKey_eq_false_of_getAssoc_none {α : Type} {l : List (String × α)} {k : String}
    (h : getAssoc l k = none) : hasKey l k = false := by
  induction l with
  | nil => rfl
  | cons p rest ih =>
    by_cases hp : p.1 = k
    · simp [getAssoc, hp] at h
    · simp only [getAssoc, if_neg hp] at h
      simp [hasKey, hp, ih h]

theorem getAssoc_append_left {α : Type} {l₁ : List (String × α)} (l₂ : List (String × α))
    {k : String} {v : α} (h : getAssoc l₁ k = some v) : getAssoc (l₁ ++ l₂) k = some v := by
  induction l₁ with
  | nil => simp [getAssoc] at h
  | cons p rest ih =>
    by_cases hp : p.1 = k
    · simp only [getAssoc, if_pos hp] at h ⊢; exact h
    · simp only [getAssoc, if_neg hp] at h ⊢; exact ih h

theorem getAssoc_append_right {α : Type} {l₁ : List (String × α)} (l₂ : List (String × α))
    {k : String} (h : getAssoc l₁ k = none) : getAssoc (l₁ ++ l₂) k = getAssoc l₂ k := by
  induction l₁ with
  | nil => rfl
  | cons p rest ih =>
    by_cases hp : p.1 = k
    · simp [getAssoc, hp] at h
    · simp only [getAssoc, if_neg hp] at h ⊢; exact ih h

theorem setAssoc_of_hasKey_false {α : Type} {l : List (String × α)} {k : String} (v : α)
    (h : hasKey l k = false) : setAssoc l k v = l ++ [(k, v)] := by
  simp [setAssoc, h]

theorem getAssoc_setAssoc_self {α : Type} (l : List (String × α)) (k : String) (v : α) :
    getAssoc (setAssoc l k v) k = some v := by
  unfold setAssoc
  by_cases h : hasKey l k = true
  · simp only [h, if_pos]
    induction l with
    | nil => simp [hasKey] at h
    | cons p rest ih =>
      by_cases hp : p.1 = k
      · simp [getAssoc, hp]
      · simp only [hasKey, Bool.or_eq_true, decide_eq_true_eq] at h
        rcases h with h | h
        · exact absurd h hp
        · simpa [getAssoc, hp] using ih h
  · simp only [Bool.not_eq_true] at h
    rw [if_neg (by simp [h])]
    rw [getAssoc_append_right _ (getAssoc_eq_none_of_hasKey_false h)]
    simp [getAssoc]

theorem getAssoc_map_replace {α : Type} (l : List (String × α)) {k k' : String} (v : α)
    (hne : k' ≠ k) :
    getAssoc (l.map (fun p => if p.1 = k then (k, v) else p)) k' = getAssoc l k' := by
  induction l with
  | nil => rfl
  | cons p rest ih =>
    by_cases hp : p.1 = k
    · have h1 : ¬(k = k') := fun h => hne h.symm
      have h2 : ¬(p.1 = k') := fun h => hne (h.symm.trans hp)
      simp only [List.map_cons, if_pos hp, getAssoc, if_neg h1, if_neg h2]
      exact ih
    · simp only [List.map_cons, if_neg hp, getAssoc]
      by_cases hk' : p.1 = k' <;> simp [hk', ih]

theorem getAssoc_setAssoc_ne {α : Type} (l : List (String × α)) {k k' : String} (v : α)
    (hne : k' ≠ k) : getAssoc (setAssoc l k v) k' = getAssoc l k' := by
  unfold setAssoc
  by_cases h : hasKey l k = true
  · simp only [h, if_pos]
    exact getAssoc_map_replace l v hne
  · rw [if_neg (by simp [h])]
    cases hg : getAssoc l k' with
    | some v' => rw [getAssoc_append_left _ hg]
    | none =>
      rw [getAssoc_append_right _ hg]
      simp [getAssoc, Ne.symm hne, hg]

theorem mem_setAssoc {α : Type} {l : List (String × α)} {k : String} {v : α}
    {q : String × α} (hq : q ∈ setAssoc l k v) : q ∈ l ∨ q = (k, v) := by
  unfold setAssoc at hq
  by_cases h : hasKey l k = true
  · rw [if_pos h] at hq
    rcases List.mem_map.mp hq with ⟨p, hp, he⟩
    by_cases hp1 : p.1 = k
    · right; rw [if_pos hp1] at he; exact he.symm
    · left; rw [if_neg hp1] at he; exact he ▸ hp
  · rw [if_neg h] at hq
    rcases List.mem_append.mp hq with hq | hq
    · exact Or.inl hq
    · exact Or.inr (List.mem_singleton.mp hq)

/-- Lookup into an association list is invariant under permutation when the
keys are distinct. -/
theorem getAssoc_perm {α : Type} {l₁ l₂ : List (String × α)} (h : l₁.Perm l₂)
    (hn : (l₁.map Prod.fst).Nodup) (k : String) : getAssoc l₁ k = getAssoc l₂ k := by
  induction h with
  | nil => rfl
  | cons p hp ih =>
    simp only [List.map_cons, List.nodup_cons] at hn
    by_cases hpk : p.1 = k <;> simp [getAssoc, hpk, ih hn.2]
  | swap p q l =>
    simp only [List.map_cons, List.nodup_cons, List.mem_cons, List.mem_map] at hn
    have hne : q.1 ≠ p.1 := fun he => hn.1 (Or.inl he)
    by_cases hq : q.1 = k
    · have hp : p.1 ≠ k := fun h => hne (hq.trans h.symm)
      simp [getAssoc, hq, hp]
    · by_cases hp : p.1 = k <;> simp [getAssoc, hq, hp]
  | trans h₁ h₂ ih₁ ih₂ =>
    have hn₂ := (h₁.map Prod.fst).nodup_iff.mp hn
    exact (ih₁ hn).trans (ih₂ hn₂)

/-! ## String-suffix lemmas -/

theorem pyEndsWith_append (s t : String) : pyEndsWith (s ++ t) t = true := by
  simp only [pyEndsWith, List.isSuffixOf_iff_suffix, String.data_append]
  exact List.suffix_append _ _

theorem ne_append_comment {k s : String} (h : pyEndsWith k "_COMMENT" = false) :
    k ≠ s ++ "_COMMENT" := by
  intro he
  rw [he, pyEndsWith_append] at h
  exact Bool.noConfusion h

theorem append_comment_inj {a b : String} (h : a ++ "_COMMENT" = b ++ "_COMMENT") : a = b := by
  have h2 : (a ++ "_COMMENT").data = (b ++ "_COMMENT").data := congrArg String.data h
  rw [String.data_append, String.data_append] at h2
  have h3 := List.append_cancel_right h2
  cases a; cases b; simp_all

/-! ## Python-dict iteration lemmas -/

theorem pvLe_total (a b : PyVal) : pvLe a b = true ∨ pvLe b a = true := by
  cases a <;> cases b <;> simp [pvLe, decide_eq_true_eq] <;> exact le_total _ _

theorem pvLe_trans {a b c : PyVal} (h₁ : pvLe a b = true) (h₂ : pvLe b c = true) :
    pvLe a c = true := by
  cases a <;> cases b <;> cases c <;> simp_all [pvLe, decide_eq_true_eq] <;>
    exact le_trans h₁ h₂

theorem pvLe_antisymm {a b : PyVal} (h₁ : pvLe a b = true) (h₂ : pvLe b a = true) : a = b := by
  cases a with
  | int x =>
    cases b with
    | int y =>
      simp only [pvLe, decide_eq_true_eq] at h₁ h₂
      exact congrArg PyVal.int (le_antisymm h₁ h₂)
    | str y => simp [pvLe] at h₂
  | str x =>
    cases b with
    | int y => simp [pvLe] at h₁
    | str y =>
      simp only [pvLe, decide_eq_true_eq] at h₁ h₂
      exact congrArg PyVal.str (le_antisymm h₁ h₂)

theorem insertByKey_perm {α : Type} (p : PyVal × α) (l : List (PyVal × α)) :
    (insertByKey p l).Perm (p :: l) := by
  induction l with
  | nil => exact List.Perm.refl _
  | cons q qs ih =>
    by_cases h : pvLe p.1 q.1 = true
    · simp [insertByKey, h]
    · simp only [insertByKey, h]
      rw [if_neg (by simp [h])]
      exact (List.Perm.cons q ih).trans (List.Perm.swap p q qs)

theorem sortByKey_perm {α : Type} (l : List (PyVal × α)) : (sortByKey l).Perm l := by
  induction l with
  | nil => exact List.Perm.refl _
  | cons p ps ih => exact (insertByKey_perm p (sortByKey ps)).trans (List.Perm.cons p ih)

theorem mem_insertByKey {α : Type} {p q : PyVal × α} {l : List (PyVal × α)}
    (h : q ∈ insertByKey p l) : q = p ∨ q ∈ l := by
  have := (insertByKey_perm p l).mem_iff.mp h
  simpa using this

theorem insertByKey_sorted {α : Type} (p : PyVal × α) {l : List (PyVal × α)}
    (h : l.Pairwise (fun x y => pvLe x.1 y.1 = true)) :
    (insertByKey p l).Pairwise (fun x y => pvLe x.1 y.1 = true) := by
  induction l with
  | nil => simp [insertByKey]
  | cons q qs ih =>
    by_cases hle : pvLe p.1 q.1 = true
    · simp only [insertByKey, if_pos hle]
      refine List.Pairwise.cons ?_ h
      intro x hx
      rcases List.mem_cons.mp hx with rfl | hx
      · exact hle
      · exact pvLe_trans hle (List.rel_of_pairwise_cons h hx)
    · simp only [insertByKey]
      rw [if_neg (by simp [hle])]
      have hqp : pvLe q.1 p.1 = true := (pvLe_total p.1 q.1).resolve_left hle
      refine List.Pairwise.cons ?_ (ih (List.Pairwise.sublist (List.sublist_cons_self q qs) h))
      intro x hx
      rcases mem_insertByKey hx with rfl | hx
      · exact hqp
      · exact List.rel_of_pairwise_cons h hx

theorem sortByKey_sorted {α : Type} (l : List (PyVal × α)) :
    (sortByKey l).Pairwise (fun x y => pvLe x.1 y.1 = true) := by
  induction l with
  | nil => simp [sortByKey]
  | cons p ps ih => exact insertByKey_sorted p ih

theorem dictInsert_of_not_mem {α : Type} {l : List (PyVal × α)} {k : PyVal} (v : α)
    (h : ∀ q ∈ l, q.1 ≠ k) : dictInsert l k v = l ++ [(k, v)] := by
  induction l with
  | nil => rfl
  | cons p rest ih =>
    simp only [dictInsert, if_neg (h p (List.mem_cons_self p rest)), List.cons_append]
    rw [ih (fun q hq => h q (List.mem_cons_of_mem p hq))]

theorem dictOfPairs_eq_self {α : Type} {l : List (PyVal × α)}
    (h : (l.map Prod.fst).Nodup) : dictOfPairs l = l := by
  have haux : ∀ (l' acc : List (PyVal × α)),
      (∀ q ∈ acc, ∀ r ∈ l', q.1 ≠ r.1) → (l'.map Prod.fst).Nodup →
      l'.foldl (fun a p => dictInsert a p.1 p.2) acc = acc ++ l' := by
    intro l'
    induction l' with
    | nil => intro acc _ _; simp
    | cons p rest ih =>
      intro acc hacc hnd
      simp only [List.map_cons, List.nodup_cons, List.mem_map] at hnd
      simp only [List.foldl_cons]
      rw [dictInsert_of_not_mem _ (fun q hq => hacc q hq p (List.mem_cons_self p rest))]
      rw [ih (acc ++ [p]) ?_ hnd.2]
      · simp
      · intro q hq r hr
        rcases List.mem_append.mp hq with hq | hq
        · exact hacc q hq r (List.mem_cons_of_mem p hr)
        · rw [List.mem_singleton.mp hq]
          intro he
          exact hnd.1 ⟨r, hr, he.symm⟩
  exact haux l [] (by simp) h

theorem nodup_keys_of_pairwise_lt {α : Type} {l : List (PyVal × α)}
    (h : l.Pairwise (fun x y => pvLe x.1 y.1 = true ∧ x.1 ≠ y.1)) :
    (l.map Prod.fst).Nodup := by
  unfold List.Nodup
  rw [List.pairwise_map]
  exact h.imp (fun hab => hab.2)

theorem pairwise_key_ne_of_nodup {α : Type} {l : List (PyVal × α)}
    (h : (l.map Prod.fst).Nodup) : l.Pairwise (fun x y => x.1 ≠ y.1) := by
  unfold List.Nodup at h
  rw [List.pairwise_map] at h
  exact h

theorem pvKeyLt_antisymm {α : Type} :
    IsAntisymm (PyVal × α) (fun x y => pvLe x.1 y.1 = true ∧ x.1 ≠ y.1) :=
  ⟨fun _ _ hab hba => absurd (pvLe_antisymm hab.1 hba.1) hab.2⟩

theorem sortByKey_eq_of_perm {α : Type} {l₁ l₂ : List (PyVal × α)} (hp : l₁.Perm l₂)
    (hn : (l₁.map Prod.fst).Nodup) : sortByKey l₁ = sortByKey l₂ := by
  have hperm : (sortByKey l₁).Perm (sortByKey l₂) :=
    (sortByKey_perm l₁).trans (hp.trans (sortByKey_perm l₂).symm)
  have hn₁ : ((sortByKey l₁).map Prod.fst).Nodup :=
    ((sortByKey_perm l₁).map Prod.fst).nodup_iff.mpr hn
  have hn₂ : ((sortByKey l₂).map Prod.fst).Nodup :=
    (hperm.map Prod.fst).nodup_iff.mp hn₁
  haveI := pvKeyLt_antisymm (α := α)
  exact List.eq_of_perm_of_sorted hperm
    ((sortByKey_sorted l₁).and (pairwise_key_ne_of_nodup hn₁))
    ((sortByKey_sorted l₂).and (pairwise_key_ne_of_nodup hn₂))

theorem pyDictItems_eq_of_perm {α : Type} {l₁ l₂ : List (PyVal × α)} (hp : l₁.Perm l₂)
    (hn : (l₁.map Prod.fst).Nodup) : pyDictItems l₁ = pyDictItems l₂ := by
  have hn₂ : (l₂.map Prod.fst).Nodup := (hp.map Prod.fst).nodup_iff.mp hn
  unfold pyDictItems
  rw [dictOfPairs_eq_self hn, dictOfPairs_eq_self hn₂]
  exact sortByKey_eq_of_perm hp hn

theorem pyDictItems_eq_self {α : Type} {l : List (PyVal × α)}
    (h : l.Pairwise (fun x y => pvLe x.1 y.1 = true ∧ x.1 ≠ y.1)) : pyDictItems l = l := by
  have hn := nodup_keys_of_pairwise_lt h
  unfold pyDictItems
  rw [dictOfPairs_eq_self hn]
  haveI := pvKeyLt_antisymm (α := α)
  exact List.eq_of_perm_of_sorted (sortByKey_perm l)
    ((sortByKey_sorted l).and
      (pairwise_key_ne_of_nodup (((sortByKey_perm l).map Prod.fst).nodup_iff.mpr hn)))
    h

/-! ## write_headers lemmas -/

/-- Loop body of `write_headers`, named for the fold lemmas below. -/
def whStep (rtk rhk : List String) (hdr : List (String × PyVal))
    (acc : List (String × List PyVal)) (kv : String × PyVal) : List (String × List PyVal) :=
  let comment : PyVal := (getAssoc hdr (kv.1 ++ "_COMMENT")).getD (.str "")
  if isRestrictedKey rtk rhk kv.1 then acc
  else setAssoc (setAssoc acc kv.1 [kv.2]) (kv.1 ++ "_COMMENT") [comment]

theorem write_headers_eq_foldl (rtk rhk : List String) (A : List (String × List PyVal))
    (hdr : List (String × PyVal)) :
    write_headers rtk rhk A hdr = hdr.foldl (whStep rtk rhk hdr) A := rfl

theorem not_comment_of_user {rtk rhk : List String} {k : String}
    (h : isRestrictedKey rtk rhk k = false) : pyEndsWith k "_COMMENT" = false := by
  unfold isRestrictedKey at h
  simp only [Bool.or_eq_false_iff] at h
  exact h.1.1.1.1.1

theorem not_hdf_of_user {rtk rhk : List String} {k : String}
    (h : isRestrictedKey rtk rhk k = false) : restricted_hdf_keywords.contains k = false := by
  unfold isRestrictedKey at h
  simp only [Bool.or_eq_false_iff] at h
  exact h.2

theorem whStep_foldl_frame (rtk rhk : List String) (hdr : List (String × PyVal)) {k : String}
    (hk : isRestrictedKey rtk rhk k = true) :
    ∀ (l : List (String × PyVal)) (A : List (String × List PyVal)),
      (∀ kv ∈ l, isRestrictedKey rtk rhk kv.1 = true ∨ k ≠ kv.1 ++ "_COMMENT") →
      getAssoc (l.foldl (whStep rtk rhk hdr) A) k = getAssoc A k := by
  intro l
  induction l with
  | nil => intro A _; rfl
  | cons kv rest ih =>
    intro A hl
    rw [List.foldl_cons, ih _ (fun q hq => hl q (List.mem_cons_of_mem kv hq))]
    unfold whStep
    by_cases hr : isRestrictedKey rtk rhk kv.1 = true
    · rw [if_pos hr]
    · rw [if_neg hr]
      have h1 : k ≠ kv.1 := fun he => hr (he ▸ hk)
      have h2 : k ≠ kv.1 ++ "_COMMENT" :=
        (hl kv (List.mem_cons_self kv rest)).resolve_left hr
      rw [getAssoc_setAssoc_ne _ _ h2, getAssoc_setAssoc_ne _ _ h1]

/-- Frame property of the header writer: an attribute whose key is
restricted, and is not the paired comment key of any header entry, is
left untouched by `write_headers`. -/
theorem write_headers_frame {rtk rhk : List String} {A : List (String × List PyVal)}
    {hdr : List (String × PyVal)} {k : String}
    (hk : isRestrictedKey rtk rhk k = true)
    (hnc : ∀ kv ∈ hdr, isRestrictedKey rtk rhk kv.1 = true ∨ k ≠ kv.1 ++ "_COMMENT") :
    getAssoc (write_headers rtk rhk A hdr) k = getAssoc A k := by
  rw [write_headers_eq_foldl]
  exact whStep_foldl_frame rtk rhk hdr hk hdr A hnc

/-- Special case of the frame property: a restricted key that does not
carry the `_COMMENT` suffix is never written. -/
theorem write_headers_frame_nc {rtk rhk : List String} {A : List (String × List PyVal)}
    {hdr : List (String × PyVal)} {k : String}
    (hk : isRestrictedKey rtk rhk k = true) (hkc : pyEndsWith k "_COMMENT" = false) :
    getAssoc (write_headers rtk rhk A hdr) k = getAssoc A k :=
  write_headers_frame hk (fun kv _ => Or.inr (ne_append_comment hkc))

theorem setAssoc_values_ne_nil {α : Type} {l : List (String × List α)} {k : String}
    {v : List α} (hl : ∀ p ∈ l, p.2 ≠ []) (hv : v ≠ []) :
    ∀ p ∈ setAssoc l k v, p.2 ≠ [] := by
  intro p hp
  rcases mem_setAssoc hp with hp | hp
  · exact hl p hp
  · rw [hp]; exact hv

theorem write_headers_values_ne_nil (rtk rhk : List String)
    {A : List (String × List PyVal)} (hdr : List (String × PyVal))
    (hA : ∀ p ∈ A, p.2 ≠ []) : ∀ p ∈ write_headers rtk rhk A hdr, p.2 ≠ [] := by
  rw [write_headers_eq_foldl]
  have haux : ∀ (l : List (String × PyVal)) (A' : List (String × List PyVal)),
      (∀ p ∈ A', p.2 ≠ []) → ∀ p ∈ l.foldl (whStep rtk rhk hdr) A', p.2 ≠ [] := by
    intro l
    induction l with
    | nil => intro A' h p hp; exact h p hp
    | cons kv rest ih =>
      intro A' h p hp
      rw [List.foldl_cons] at hp
      refine ih _ ?_ p hp
      unfold whStep
      by_cases hr : isRestrictedKey rtk rhk kv.1 = true
      · rw [if_pos hr]; exact h
      · rw [if_neg hr]
        exact setAssoc_values_ne_nil
          (setAssoc_values_ne_nil h (by simp)) (by simp)
  exact haux hdr A hA

/-- Header mapping as the claim expects it back after a round trip: each
user key with its value, each immediately followed by its paired comment
key holding the empty string. -/
def expandHeader : List (String × PyVal) → List (String × PyVal)
  | [] => []
  | kv :: rest => (kv.1, kv.2) :: (kv.1 ++ "_COMMENT", PyVal.str "") :: expandHeader rest

/-- Attribute entries written by `write_headers` for an all-user header
with no stored comments. -/
def expandAttrs : List (String × PyVal) → List (String × List PyVal)
  | [] => []
  | kv :: rest => (kv.1, [kv.2]) :: (kv.1 ++ "_COMMENT", [PyVal.str ""]) :: expandAttrs rest

theorem getAssoc_comment_none {hdr : List (String × PyVal)}
    (h : ∀ kv ∈ hdr, pyEndsWith kv.1 "_COMMENT" = false) (s : String) :
    getAssoc hdr (s ++ "_COMMENT") = none := by
  induction hdr with
  | nil => rfl
  | cons kv rest ih =>
    have hkv := h kv (List.mem_cons_self kv rest)
    rw [getAssoc_cons, if_neg (ne_append_comment hkv)]
    exact ih (fun q hq => h q (List.mem_cons_of_mem kv hq))

theorem hasKey_pair {α : Type} (a b k : String) (va vb : α) :
    hasKey [(a, va), (b, vb)] k = (decide (a = k) || decide (b = k)) := by
  simp [hasKey]

/-- Shape of `write_headers` on an all-user header with distinct keys,
relative to a base attribute list fresh for all written keys: it appends
exactly the expanded value/comment pairs, in header order. -/
theorem write_headers_user_shape (rtk rhk : List String) (hdr : List (String × PyVal))
    (hcomment : ∀ s, getAssoc hdr (s ++ "_COMMENT") = none) :
    ∀ (l : List (String × PyVal)) (A : List (String × List PyVal)),
      (∀ kv ∈ l, isRestrictedKey rtk rhk kv.1 = false) →
      (l.map Prod.fst).Nodup →
      (∀ kv ∈ l, hasKey A kv.1 = false ∧ hasKey A (kv.1 ++ "_COMMENT") = false) →
      l.foldl (whStep rtk rhk hdr) A = A ++ expandAttrs l := by
  intro l
  induction l with
  | nil => intro A _ _ _; simp [expandAttrs]
  | cons kv rest ih =>
    intro A huser hnodup hfresh
    have hkv := huser kv (List.mem_cons_self kv rest)
    have hkvend := not_comment_of_user hkv
    have hA := hfresh kv (List.mem_cons_self kv rest)
    have hnd := hnodup
    rw [List.map_cons, List.nodup_cons] at hnd
    have hstep : whStep rtk rhk hdr A kv
        = A ++ [(kv.1, [kv.2]), (kv.1 ++ "_COMMENT", [PyVal.str ""])] := by
      unfold whStep
      rw [hcomment kv.1]
      rw [if_neg (by simp [hkv])]
      rw [setAssoc_of_hasKey_false _ hA.1]
      rw [setAssoc_of_hasKey_false _ ?fresh2]
      case fresh2 =>
        rw [hasKey_append, hA.2]
        simp only [Bool.false_or, hasKey, Bool.or_false, decide_eq_false_iff_not]
        exact ne_append_comment hkvend
      simp
    rw [List.foldl_cons, hstep]
    rw [ih (A ++ [(kv.1, [kv.2]), (kv.1 ++ "_COMMENT", [PyVal.str ""])])
      (fun q hq => huser q (List.mem_cons_of_mem kv hq)) hnd.2 ?freshRest]
    · simp [expandAttrs]
    case freshRest =>
      intro q hq
      have hquser := huser q (List.mem_cons_of_mem kv hq)
      have hqend := not_comment_of_user hquser
      have hne1 : kv.1 ≠ q.1 := fun he => hnd.1 (he ▸ List.mem_map_of_mem Prod.fst hq)
      have hfq := hfresh q (List.mem_cons_of_mem kv hq)
      constructor
      · rw [hasKey_append, hfq.1, hasKey_pair]
        simp only [Bool.false_or, Bool.or_eq_false_iff, decide_eq_false_iff_not]
        exact ⟨hne1, fun he => (ne_append_comment hqend) he.symm⟩
      · rw [hasKey_append, hfq.2, hasKey_pair]
        simp only [Bool.false_or, Bool.or_eq_false_iff, decide_eq_false_iff_not]
        exact ⟨ne_append_comment hkvend, fun he => hne1 (append_comment_inj he)⟩

/-! ## readHVals lemmas -/

theorem readHVals_skip {k : String} {vs : List PyVal} {rest : List (String × List PyVal)}
    (h : restricted_hdf_keywords.contains k = true) :
    readHVals ((k, vs) :: rest) = readHVals rest := by
  simp only [readHVals]
  rw [if_pos h]

theorem readHVals_keep {k : String} {v : PyVal} {vt : List PyVal}
    {rest : List (String × List PyVal)} (h : restricted_hdf_keywords.contains k = false) :
    readHVals ((k, v :: vt) :: rest) = (readHVals rest).map (fun l => (k, v) :: l) := by
  simp only [readHVals]
  rw [if_neg (by rw [h]; exact Bool.false_ne_true)]

theorem comment_not_hdf (s : String) :
    restricted_hdf_keywords.contains (s ++ "_COMMENT") = false := by
  have h1 : s ++ "_COMMENT" ≠ "CLASS" := fun h =>
    ne_append_comment (k := "CLASS") (by decide) h.symm
  have h2 : s ++ "_COMMENT" ≠ "SUBCLASS" := fun h =>
    ne_append_comment (k := "SUBCLASS") (by decide) h.symm
  have h3 : s ++ "_COMMENT" ≠ "POSITION" := fun h =>
    ne_append_comment (k := "POSITION") (by decide) h.symm
  simp [restricted_hdf_keywords, List.contains, h1, h2, h3]

theorem readHVals_expandAttrs {rtk rhk : List String} {hdr : List (String × PyVal)}
    (huser : ∀ kv ∈ hdr, isRestrictedKey rtk rhk kv.1 = false) :
    readHVals (expandAttrs hdr) = .ok (expandHeader hdr) := by
  induction hdr with
  | nil => rfl
  | cons kv rest ih =>
    have hkv := huser kv (List.mem_cons_self kv rest)
    show readHVals ((kv.1, [kv.2]) :: (kv.1 ++ "_COMMENT", [PyVal.str ""]) :: expandAttrs rest) = _
    rw [readHVals_keep (not_hdf_of_user hkv), readHVals_keep (comment_not_hdf kv.1)]
    rw [ih (fun q hq => huser q (List.mem_cons_of_mem kv hq))]
    rfl

/-! ## Export shape lemmas -/

theorem mem_keys_iff_hasKey {α : Type} (l : List (String × α)) (k : String) :
    k ∈ l.map Prod.fst ↔ hasKey l k = true := by
  induction l with
  | nil => simp [hasKey]
  | cons p rest ih =>
    simp only [List.map_cons, List.mem_cons, hasKey, Bool.or_eq_true, decide_eq_true_eq, ih]
    constructor
    · rintro (h | h)
      · exact Or.inl h.symm
      · exact Or.inr h
    · rintro (h | h)
      · exact Or.inl h.symm
      · exact Or.inr h

/-- Canonical top-level children produced by a successful export pass. -/
def rootOf (rtk rhk : List String) : List IdiUnit → Nat → List (String × HNode)
  | [], _ => []
  | u :: us, hid => (u.name, (exportUnit rtk rhk u (hid + 1)).1) :: rootOf rtk rhk us (hid + 1)

/-- Success of every per-unit dispatch along the export loop. -/
def UnitsOk (rtk rhk : List String) : List IdiUnit → Nat → Prop
  | [], _ => True
  | u :: us, hid => (exportUnit rtk rhk u (hid + 1)).2 = none ∧ UnitsOk rtk rhk us (hid + 1)

theorem exportUnits_cons_dup (rtk rhk : List String) (u : IdiUnit) (rest : List IdiUnit)
    (hid : Nat) (acc : List (String × HNode)) (hk : hasKey acc u.name = true) :
    exportUnits rtk rhk (u :: rest) hid acc
      = (acc, .error ("unable to create group " ++ u.name)) := by
  simp only [exportUnits]
  rw [if_pos hk]

theorem exportUnits_cons_err (rtk rhk : List String) (u : IdiUnit) (rest : List IdiUnit)
    (hid : Nat) (acc : List (String × HNode)) {e : String}
    (hk : hasKey acc u.name = false) (h2 : (exportUnit rtk rhk u (hid + 1)).2 = some e) :
    exportUnits rtk rhk (u :: rest) hid acc
      = (acc ++ [(u.name, (exportUnit rtk rhk u (hid + 1)).1)], .error e) := by
  simp only [exportUnits]
  rw [if_neg (by rw [hk]; exact Bool.false_ne_true), h2]

theorem exportUnits_cons_ok (rtk rhk : List String) (u : IdiUnit) (rest : List IdiUnit)
    (hid : Nat) (acc : List (String × HNode))
    (hk : hasKey acc u.name = false) (h2 : (exportUnit rtk rhk u (hid + 1)).2 = none) :
    exportUnits rtk rhk (u :: rest) hid acc
      = exportUnits rtk rhk rest (hid + 1)
          (acc ++ [(u.name, (exportUnit rtk rhk u (hid + 1)).1)]) := by
  simp only [exportUnits]
  rw [if_neg (by rw [hk]; exact Bool.false_ne_true), h2]

theorem exportUnits_ok_shape (rtk rhk : List String) :
    ∀ (us : List IdiUnit) (hid : Nat) (acc : List (String × HNode)),
      (exportUnits rtk rhk us hid acc).2 = .ok () →
      (exportUnits rtk rhk us hid acc).1 = acc ++ rootOf rtk rhk us hid ∧
        UnitsOk rtk rhk us hid := by
  intro us
  induction us with
  | nil => intro hid acc _; simp [exportUnits, rootOf, UnitsOk]
  | cons u rest ih =>
    intro hid acc hok
    by_cases hk : hasKey acc u.name = true
    · rw [exportUnits_cons_dup rtk rhk u rest hid acc hk] at hok
      exact Except.noConfusion hok
    · have hk' : hasKey acc u.name = false := by
        cases hkk : hasKey acc u.name
        · rfl
        · exact absurd hkk hk
      rcases h2 : (exportUnit rtk rhk u (hid + 1)).2 with _ | e
      · rw [exportUnits_cons_ok rtk rhk u rest hid acc hk' h2] at hok ⊢
        rcases ih (hid + 1) (acc ++ [(u.name, (exportUnit rtk rhk u (hid + 1)).1)]) hok
          with ⟨hsh, hoks⟩
        constructor
        · rw [hsh]
          simp [rootOf]
        · simp [UnitsOk, h2, hoks]
      · rw [exportUnits_cons_err rtk rhk u rest hid acc hk' h2] at hok
        exact Except.noConfusion hok

theorem exportUnits_ok_nodup (rtk rhk : List String) :
    ∀ (us : List IdiUnit) (hid : Nat) (acc : List (String × HNode)),
      (exportUnits rtk rhk us hid acc).2 = .ok () →
      (acc.map Prod.fst).Nodup →
      ((acc ++ rootOf rtk rhk us hid).map Prod.fst).Nodup := by
  intro us
  induction us with
  | nil => intro hid acc _ hacc; simpa [rootOf] using hacc
  | cons u rest ih =>
    intro hid acc hok hacc
    by_cases hk : hasKey acc u.name = true
    · rw [exportUnits_cons_dup rtk rhk u rest hid acc hk] at hok
      exact Except.noConfusion hok
    · have hk' : hasKey acc u.name = false := by
        cases hkk : hasKey acc u.name
        · rfl
        · exact absurd hkk hk
      rcases h2 : (exportUnit rtk rhk u (hid + 1)).2 with _ | e
      · rw [exportUnits_cons_ok rtk rhk u rest hid acc hk' h2] at hok
        have hacc' : ((acc ++ [(u.name, (exportUnit rtk rhk u (hid + 1)).1)]).map
            Prod.fst).Nodup := by
          rw [List.map_append, List.nodup_append]
          refine ⟨hacc, by simp, ?_⟩
          intro a ha hb
          simp only [List.map_cons, List.map_nil, List.mem_singleton] at hb
          rw [hb] at ha
          exact hk ((mem_keys_iff_hasKey acc u.name).mp ha)
        have := ih (hid + 1) (acc ++ [(u.name, (exportUnit rtk rhk u (hid + 1)).1)]) hok hacc'
        simpa [rootOf, List.append_assoc] using this
      · rw [exportUnits_cons_err rtk rhk u rest hid acc hk' h2] at hok
        exact Except.noConfusion hok

theorem isRestrictedKey_position (rtk rhk : List String) :
    isRestrictedKey rtk rhk "POSITION" = true := by
  simp [isRestrictedKey, restricted_hdf_keywords]

/-- DATA children of a unit group as built by a successful export
dispatch. -/
def dataChildrenOfUnit : IdiUnit → List (String × HNode)
  | u =>
    match u.hdu with
    | .primary => []
    | .table cols =>
      [("DATA", HNode.group (setAssoc [] "CLASS" [PyVal.str "DATA_GROUP"])
        (exportColumns cols 0 []).1)]
    | .image arr => [("DATA", (exportImage arr).1)]

theorem exportUnit_ok_shape (rtk rhk : List String) (u : IdiUnit) (pos : Nat)
    (h : (exportUnit rtk rhk u pos).2 = none) :
    (exportUnit rtk rhk u pos).1 = HNode.group
      (write_headers rtk rhk
        (setAssoc (setAssoc [] "CLASS" [PyVal.str "HDU"]) "POSITION"
          [PyVal.int (Int.ofNat pos)]) u.header)
      (addCommentHistory (dataChildrenOfUnit u) u) := by
  obtain ⟨nm, hdu, hdr, cm, hs⟩ := u
  cases hdu with
  | primary => rfl
  | table cols =>
    simp only [exportUnit] at h ⊢
    rcases h2 : (exportColumns cols 0 []).2 with _ | e
    · rfl
    · rw [h2] at h
      exact Option.noConfusion h
  | image arr =>
    simp only [exportUnit] at h ⊢
    rcases h2 : (exportImage arr).2 with _ | e
    · rfl
    · rw [h2] at h
      exact Option.noConfusion h

theorem exportUnit_ok_position (rtk rhk : List String) (u : IdiUnit) (pos : Nat)
    (h : (exportUnit rtk rhk u pos).2 = none) :
    getAssoc (nodeAttrs (exportUnit rtk rhk u pos).1) "POSITION"
      = some [PyVal.int (Int.ofNat pos)] := by
  rw [exportUnit_ok_shape rtk rhk u pos h]
  show getAssoc (write_headers rtk rhk _ u.header) "POSITION" = _
  rw [write_headers_frame_nc (isRestrictedKey_position rtk rhk) (by decide)]
  rw [getAssoc_setAssoc_self]

/-! ## Column export/read lemmas -/

/-- Attributes of one exported column dataset. -/
def colAttrsOf (c : IdiColumn) (n : Nat) : List (String × List PyVal) :=
  let a1 := setAssoc (setAssoc [] "CLASS" [PyVal.str "COLUMN"]) "COLUMN_ID"
    [PyVal.int (Int.ofNat n)]
  if pyTruthyVal c.unit then
    setAssoc a1 "UNITS" [PyVal.str (pyStr (c.unit.getD (PyVal.str "")))]
  else a1

/-- Canonical DATA-group children produced by a successful column export. -/
def colNodesOf : List IdiColumn → Nat → List (String × HNode)
  | [], _ => []
  | c :: cs, n => (c.name, HNode.dataset (colAttrsOf c n) c.data) :: colNodesOf cs (n + 1)

/-- COLUMN_ID/name pairs the reader collects from the canonical children. -/
def idPairsOf : List IdiColumn → Nat → List (PyVal × String)
  | [], _ => []
  | c :: cs, n => (PyVal.int (Int.ofNat n), c.name) :: idPairsOf cs (n + 1)

theorem exportColumns_cons_dup (c : IdiColumn) (cs : List IdiColumn) (n : Nat)
    (acc : List (String × HNode)) (hk : hasKey acc c.name = true) :
    exportColumns (c :: cs) n acc = (acc, some ("unable to create dataset " ++ c.name)) := by
  simp only [exportColumns]
  rw [if_pos hk]

theorem exportColumns_cons_ok (c : IdiColumn) (cs : List IdiColumn) (n : Nat)
    (acc : List (String × HNode)) (hk : hasKey acc c.name = false) :
    exportColumns (c :: cs) n acc
      = exportColumns cs (n + 1) (acc ++ [(c.name, HNode.dataset (colAttrsOf c n) c.data)]) := by
  simp only [exportColumns, colAttrsOf]
  rw [if_neg (by rw [hk]; exact Bool.false_ne_true)]

theorem exportColumns_ok_shape :
    ∀ (cs : List IdiColumn) (n : Nat) (acc : List (String × HNode)),
      (exportColumns cs n acc).2 = none →
      (exportColumns cs n acc).1 = acc ++ colNodesOf cs n := by
  intro cs
  induction cs with
  | nil => intro n acc _; simp [exportColumns, colNodesOf]
  | cons c rest ih =>
    intro n acc hok
    by_cases hk : hasKey acc c.name = true
    · rw [exportColumns_cons_dup c rest n acc hk] at hok
      exact Option.noConfusion hok
    · have hk' : hasKey acc c.name = false := by
        cases hkk : hasKey acc c.name
        · rfl
        · exact absurd hkk hk
      rw [exportColumns_cons_ok c rest n acc hk'] at hok ⊢
      rw [ih (n + 1) _ hok]
      simp [colNodesOf]

theorem exportColumns_ok_nodup :
    ∀ (cs : List IdiColumn) (n : Nat) (acc : List (String × HNode)),
      (exportColumns cs n acc).2 = none →
      (acc.map Prod.fst).Nodup →
      ((acc ++ colNodesOf cs n).map Prod.fst).Nodup := by
  intro cs
  induction cs with
  | nil => intro n acc _ hacc; simpa [colNodesOf] using hacc
  | cons c rest ih =>
    intro n acc hok hacc
    by_cases hk : hasKey acc c.name = true
    · rw [exportColumns_cons_dup c rest n acc hk] at hok
      exact Option.noConfusion hok
    · have hk' : hasKey acc c.name = false := by
        cases hkk : hasKey acc c.name
        · rfl
        · exact absurd hkk hk
      rw [exportColumns_cons_ok c rest n acc hk'] at hok
      have hacc' : ((acc ++ [(c.name, HNode.dataset (colAttrsOf c n) c.data)]).map
          Prod.fst).Nodup := by
        rw [List.map_append, List.nodup_append]
        refine ⟨hacc, by simp, ?_⟩
        intro a ha hb
        simp only [List.map_cons, List.map_nil, List.mem_singleton] at hb
        rw [hb] at ha
        exact hk ((mem_keys_iff_hasKey acc c.name).mp ha)
      have := ih (n + 1) _ hok hacc'
      simpa [colNodesOf, List.append_assoc] using this

theorem colAttrsOf_colid (c : IdiColumn) (n : Nat) :
    getAssoc (colAttrsOf c n) "COLUMN_ID" = some [PyVal.int (Int.ofNat n)] := by
  unfold colAttrsOf
  by_cases h : pyTruthyVal c.unit = true
  · rw [if_pos h, getAssoc_setAssoc_ne _ _ (by decide), getAssoc_setAssoc_self]
  · rw [if_neg h, getAssoc_setAssoc_self]

theorem colNodesOf_keys (cs : List IdiColumn) (n : Nat) :
    (colNodesOf cs n).map Prod.fst = cs.map IdiColumn.name := by
  induction cs generalizing n with
  | nil => rfl
  | cons c rest ih => simp [colNodesOf, ih]

theorem idPairsOf_snd (cs : List IdiColumn) (n : Nat) :
    (idPairsOf cs n).map Prod.snd = cs.map IdiColumn.name := by
  induction cs generalizing n with
  | nil => rfl
  | cons c rest ih => simp [idPairsOf, ih]

theorem mem_idPairsOf_key {cs : List IdiColumn} {n : Nat} {q : PyVal × String}
    (h : q ∈ idPairsOf cs n) : ∃ m, q.1 = PyVal.int (Int.ofNat m) ∧ n ≤ m := by
  induction cs generalizing n with
  | nil => simp [idPairsOf] at h
  | cons c rest ih =>
    rcases List.mem_cons.mp h with rfl | h
    · exact ⟨n, rfl, le_refl n⟩
    · rcases ih h with ⟨m, hm, hle⟩
      exact ⟨m, hm, le_trans (Nat.le_succ n) hle⟩

theorem idPairsOf_sorted (cs : List IdiColumn) (n : Nat) :
    (idPairsOf cs n).Pairwise (fun x y => pvLe x.1 y.1 = true ∧ x.1 ≠ y.1) := by
  induction cs generalizing n with
  | nil => simp [idPairsOf]
  | cons c rest ih =>
    refine List.Pairwise.cons ?_ (ih (n + 1))
    intro q hq
    rcases mem_idPairsOf_key hq with ⟨m, hm, hle⟩
    constructor
    · rw [hm]
      simp only [pvLe, decide_eq_true_eq]
      exact Int.ofNat_le.mpr (Nat.le_of_succ_le hle)
    · rw [hm]
      intro he
      have hnm : Int.ofNat n = Int.ofNat m := PyVal.int.inj he
      have : n = m := Int.ofNat.inj hnm
      omega

/-- COLUMN_ID/name pair the reader extracts from one DATA child. -/
def colIdPair (p : String × HNode) : PyVal × String :=
  (((getAssoc (nodeAttrs p.2) "COLUMN_ID").getD []).headD (PyVal.int 0), p.1)

theorem collectColIds_eq_map (l : List (String × HNode))
    (h : ∀ p ∈ l, ∃ v vr, getAssoc (nodeAttrs p.2) "COLUMN_ID" = some (v :: vr)) :
    collectColIds l = .ok (l.map colIdPair) := by
  induction l with
  | nil => rfl
  | cons p rest ih =>
    rcases h p (List.mem_cons_self p rest) with ⟨v, vr, hv⟩
    simp only [collectColIds]
    rw [hv, ih (fun q hq => h q (List.mem_cons_of_mem p hq))]
    simp [colIdPair, hv, Except.map]

theorem map_colIdPair_colNodesOf (cs : List IdiColumn) (n : Nat) :
    (colNodesOf cs n).map colIdPair = idPairsOf cs n := by
  induction cs generalizing n with
  | nil => rfl
  | cons c rest ih =>
    simp [colNodesOf, idPairsOf, colIdPair, nodeAttrs, colAttrsOf_colid, ih]

theorem colNodes_lookup_spec :
    ∀ (cs : List IdiColumn) (n : Nat),
      ((colNodesOf cs n).map Prod.fst).Nodup →
      ∀ q ∈ idPairsOf cs n,
        ∃ a d, getAssoc (colNodesOf cs n) q.2 = some (HNode.dataset a d) ∧
          ∃ v vr, getAssoc a "COLUMN_ID" = some (v :: vr) := by
  intro cs
  induction cs with
  | nil => intro n _ q hq; simp [idPairsOf] at hq
  | cons c rest ih =>
    intro n hnodup q hq
    simp only [idPairsOf] at hq
    simp only [colNodesOf, List.map_cons, List.nodup_cons] at hnodup
    rcases List.mem_cons.mp hq with rfl | hq
    · refine ⟨colAttrsOf c n, c.data, ?_, PyVal.int (Int.ofNat n), [], colAttrsOf_colid c n⟩
      simp [colNodesOf, getAssoc]
    · have hq2 : q.2 ∈ (colNodesOf rest (n + 1)).map Prod.fst := by
        rw [colNodesOf_keys, ← idPairsOf_snd rest (n + 1)]
        exact List.mem_map_of_mem Prod.snd hq
      have hne : c.name ≠ q.2 := fun he => hnodup.1 (he ▸ hq2)
      rcases ih (n + 1) hnodup.2 q hq with ⟨a, d, hga, v, vr, hcid⟩
      refine ⟨a, d, ?_, v, vr, hcid⟩
      simp only [colNodesOf, getAssoc, if_neg hne]
      exact hga

theorem readGroupCols_names (dch : List (String × HNode)) :
    ∀ (ps : List (PyVal × String)),
      (∀ q ∈ ps, ∃ a d, getAssoc dch q.2 = some (HNode.dataset a d) ∧
        ∃ v vr, getAssoc a "COLUMN_ID" = some (v :: vr)) →
      ∃ cols', readGroupCols dch ps = .ok cols' ∧
        cols'.map IdiColumn.name = ps.map Prod.snd := by
  intro ps
  induction ps with
  | nil => intro _; exact ⟨[], rfl, rfl⟩
  | cons q rest ih =>
    intro h
    rcases h q (List.mem_cons_self q rest) with ⟨a, d, hga, v, vr, hcid⟩
    rcases ih (fun r hr => h r (List.mem_cons_of_mem q hr)) with ⟨cols', hc, hnames⟩
    obtain ⟨pv, cname⟩ := q
    simp only [readGroupCols]
    rw [hga]
    simp only [nodeAttrs]
    rw [hcid, hc]
    refine ⟨_, rfl, ?_⟩
    simp only [List.map_cons]
    rw [hnames]

/-! ## Per-unit read-back lemmas -/

theorem getAssoc_append_single_ne {α : Type} (l : List (String × α)) (a : String) (v : α)
    {k : String} (h : k ≠ a) : getAssoc (l ++ [(a, v)]) k = getAssoc l k := by
  cases hg : getAssoc l k with
  | some w => rw [getAssoc_append_left _ hg]
  | none =>
    rw [getAssoc_append_right _ hg]
    simp [getAssoc, Ne.symm h, hg]

theorem getAssoc_addCommentHistory (children : List (String × HNode)) (u : IdiUnit)
    {k : String} (hc : k ≠ "COMMENT") (hh : k ≠ "HISTORY") :
    getAssoc (addCommentHistory children u) k = getAssoc children k := by
  simp only [addCommentHistory]
  by_cases h2 : pyTruthyList u.history = true
  · rw [if_pos h2]
    by_cases h1 : pyTruthyList u.comment = true
    · rw [if_pos h1, getAssoc_append_single_ne _ _ _ hh, getAssoc_append_single_ne _ _ _ hc]
    · rw [if_neg h1, getAssoc_append_single_ne _ _ _ hh]
  · rw [if_neg h2]
    by_cases h1 : pyTruthyList u.comment = true
    · rw [if_pos h1, getAssoc_append_single_ne _ _ _ hc]
    · rw [if_neg h1]

theorem readHVals_ok_of_values_ne_nil :
    ∀ (attrs : List (String × List PyVal)), (∀ p ∈ attrs, p.2 ≠ []) →
      ∃ hv, readHVals attrs = .ok hv := by
  intro attrs
  induction attrs with
  | nil => exact fun _ => ⟨[], rfl⟩
  | cons p rest ih =>
    intro h
    obtain ⟨k, vs⟩ := p
    rcases ih (fun q hq => h q (List.mem_cons_of_mem _ hq)) with ⟨hv, hhv⟩
    by_cases hk : restricted_hdf_keywords.contains k = true
    · exact ⟨hv, by rw [readHVals_skip hk]; exact hhv⟩
    · have hk' : restricted_hdf_keywords.contains k = false := by
        cases hkk : restricted_hdf_keywords.contains k
        · rfl
        · exact absurd hkk hk
      cases vs with
      | nil => exact absurd rfl (h (k, []) (List.mem_cons_self _ rest))
      | cons v vt =>
        exact ⟨(k, v) :: hv, by rw [readHVals_keep hk', hhv]; rfl⟩

theorem hduAttrs_values_ne_nil (pos : Nat) :
    ∀ p ∈ setAssoc (setAssoc ([] : List (String × List PyVal)) "CLASS"
      [PyVal.str "HDU"]) "POSITION" [PyVal.int (Int.ofNat pos)], p.2 ≠ [] := by
  intro p hp
  have he : setAssoc (setAssoc ([] : List (String × List PyVal)) "CLASS"
      [PyVal.str "HDU"]) "POSITION" [PyVal.int (Int.ofNat pos)]
      = [("CLASS", [PyVal.str "HDU"]), ("POSITION", [PyVal.int (Int.ofNat pos)])] := rfl
  rw [he] at hp
  rcases List.mem_cons.mp hp with rfl | hp
  · simp
  · rw [List.mem_singleton.mp hp]
    simp

theorem exportImage_shape (arr : HData) :
    ∃ a, (exportImage arr).1 = HNode.dataset a arr
      ∧ getAssoc a "CLASS" = some [PyVal.str "IMAGE"] := by
  unfold exportImage
  by_cases h : ndim arr = 2
  · rw [if_pos h]
    cases hmin : npMin arr with
    | error e => cases hmax : npMax arr with
      | error e2 => exact ⟨_, rfl, rfl⟩
      | ok mx => exact ⟨_, rfl, rfl⟩
    | ok mn => cases hmax : npMax arr with
      | error e2 => exact ⟨_, rfl, rfl⟩
      | ok mx => exact ⟨_, rfl, rfl⟩
  · rw [if_neg h]
    exact ⟨_, rfl, rfl⟩

theorem colNodesOf_colid_present :
    ∀ (cs : List IdiColumn) (n : Nat), ∀ p ∈ colNodesOf cs n,
      ∃ v vr, getAssoc (nodeAttrs p.2) "COLUMN_ID" = some (v :: vr) := by
  intro cs
  induction cs with
  | nil => intro n p hp; simp [colNodesOf] at hp
  | cons c rest ih =>
    intro n p hp
    simp only [colNodesOf] at hp
    rcases List.mem_cons.mp hp with rfl | hp
    · exact ⟨PyVal.int (Int.ofNat n), [], colAttrsOf_colid c n⟩
    · exact ih (n + 1) p hp

/-- Read-back of one exported unit group: the reader reconstructs a unit
bearing the group's name, and for a table unit the column names come back
in the original column order. -/
theorem readGroup_exported (rtk rhk : List String) (u : IdiUnit) (pos : Nat)
    (hok : (exportUnit rtk rhk u pos).2 = none) :
    ∃ v ws, readGroup (exportUnit rtk rhk u pos).1 u.name = .ok (some v, ws) ∧
      v.name = u.name ∧
      ∀ cols, u.hdu = .table cols →
        ∃ cols', v.hdu = .table cols' ∧
          cols'.map IdiColumn.name = cols.map IdiColumn.name := by
  rw [exportUnit_ok_shape rtk rhk u pos hok]
  have hattrs := write_headers_values_ne_nil rtk rhk u.header (hduAttrs_values_ne_nil pos)
  rcases readHVals_ok_of_values_ne_nil _ hattrs with ⟨hv, hhv⟩
  simp only [readGroup]
  rw [hhv]
  cases hu : u.hdu with
  | primary =>
    have hdata : getAssoc (addCommentHistory (dataChildrenOfUnit u) u) "DATA" = none := by
      rw [getAssoc_addCommentHistory _ _ (by decide) (by decide)]
      simp [dataChildrenOfUnit, hu, getAssoc]
    rw [hdata]
    refine ⟨_, _, rfl, rfl, fun cols hcols => ?_⟩
    exact IdiHdu.noConfusion hcols
  | table cols =>
    have hcols_ok : (exportColumns cols 0 []).2 = none := by
      simp only [exportUnit, hu] at hok
      cases h2 : (exportColumns cols 0 []).2 with
      | none => rfl
      | some e =>
        rw [h2] at hok
        exact Option.noConfusion hok
    have hshape : (exportColumns cols 0 []).1 = colNodesOf cols 0 := by
      have := exportColumns_ok_shape cols 0 [] hcols_ok
      simpa using this
    have hnodup : ((colNodesOf cols 0).map Prod.fst).Nodup := by
      have := exportColumns_ok_nodup cols 0 [] hcols_ok (by simp)
      simpa using this
    have hdata : getAssoc (addCommentHistory (dataChildrenOfUnit u) u) "DATA"
        = some (HNode.group (setAssoc [] "CLASS" [PyVal.str "DATA_GROUP"])
            (colNodesOf cols 0)) := by
      rw [getAssoc_addCommentHistory _ _ (by decide) (by decide)]
      simp [dataChildrenOfUnit, hu, getAssoc, hshape]
    rw [hdata]
    simp only []
    have hclass : getAssoc (nodeAttrs (HNode.group (setAssoc [] "CLASS"
        [PyVal.str "DATA_GROUP"]) (colNodesOf cols 0))) "CLASS"
        = some [PyVal.str "DATA_GROUP"] := rfl
    rw [hclass]
    simp only []
    have hcollect : collectColIds (colNodesOf cols 0) = .ok (idPairsOf cols 0) := by
      rw [collectColIds_eq_map _ (colNodesOf_colid_present cols 0),
        map_colIdPair_colNodesOf]
    rw [hcollect]
    simp only []
    rw [pyDictItems_eq_self (idPairsOf_sorted cols 0)]
    rcases readGroupCols_names (colNodesOf cols 0) (idPairsOf cols 0)
      (colNodes_lookup_spec cols 0 hnodup) with ⟨cols', hrc, hnames⟩
    rw [hrc]
    refine ⟨_, _, rfl, rfl, fun cols0 hcols0 => ?_⟩
    refine ⟨cols', rfl, ?_⟩
    rw [hnames, idPairsOf_snd, IdiHdu.table.inj hcols0]
  | image arr =>
    have himg_ok : (exportImage arr).2 = none := by
      simp only [exportUnit, hu] at hok
      cases h2 : (exportImage arr).2 with
      | none => rfl
      | some e =>
        rw [h2] at hok
        exact Option.noConfusion hok
    rcases exportImage_shape arr with ⟨a, hds, hcls⟩
    have hdata : getAssoc (addCommentHistory (dataChildrenOfUnit u) u) "DATA"
        = some (HNode.dataset a arr) := by
      rw [getAssoc_addCommentHistory _ _ (by decide) (by decide)]
      simp [dataChildrenOfUnit, hu, getAssoc, hds]
    rw [hdata]
    simp only []
    have hclass : getAssoc (nodeAttrs (HNode.dataset a arr)) "CLASS"
        = some [PyVal.str "IMAGE"] := hcls
    rw [hclass]
    simp only []
    refine ⟨_, _, rfl, rfl, fun cols hcols => ?_⟩
    exact IdiHdu.noConfusion hcols

/-! ## Read-loop lemmas -/

/-- POSITION/name pair the reader collects from one top-level child. -/
def posPair (p : String × HNode) : PyVal × String :=
  (((getAssoc (nodeAttrs p.2) "POSITION").getD []).headD (PyVal.int 0), p.1)

/-- Canonical POSITION/name pairs of an exported unit list. -/
def posPairsOf : List IdiUnit → Nat → List (PyVal × String)
  | [], _ => []
  | u :: us, hid => (PyVal.int (Int.ofNat (hid + 1)), u.name) :: posPairsOf us (hid + 1)

theorem collectPositions_eq_map (root : List (String × HNode))
    (h : ∀ p ∈ root, ∃ v vr, getAssoc (nodeAttrs p.2) "POSITION" = some (v :: vr)) :
    collectPositions root = .ok (root.map posPair) := by
  induction root with
  | nil => rfl
  | cons p rest ih =>
    rcases h p (List.mem_cons_self p rest) with ⟨v, vr, hv⟩
    obtain ⟨gname, node⟩ := p
    simp only [collectPositions]
    rw [hv, ih (fun q hq => h q (List.mem_cons_of_mem _ hq))]
    simp [posPair, hv, Except.map]

theorem posPairsOf_snd (us : List IdiUnit) (hid : Nat) :
    (posPairsOf us hid).map Prod.snd = us.map IdiUnit.name := by
  induction us generalizing hid with
  | nil => rfl
  | cons u rest ih => simp [posPairsOf, ih]

theorem mem_posPairsOf_key {us : List IdiUnit} {hid : Nat} {q : PyVal × String}
    (h : q ∈ posPairsOf us hid) : ∃ m, q.1 = PyVal.int (Int.ofNat m) ∧ hid + 1 ≤ m := by
  induction us generalizing hid with
  | nil => simp [posPairsOf] at h
  | cons u rest ih =>
    rcases List.mem_cons.mp h with rfl | h
    · exact ⟨hid + 1, rfl, le_refl _⟩
    · rcases ih h with ⟨m, hm, hle⟩
      exact ⟨m, hm, le_trans (Nat.le_succ _) hle⟩

theorem posPairsOf_sorted (us : List IdiUnit) (hid : Nat) :
    (posPairsOf us hid).Pairwise (fun x y => pvLe x.1 y.1 = true ∧ x.1 ≠ y.1) := by
  induction us generalizing hid with
  | nil => simp [posPairsOf]
  | cons u rest ih =>
    refine List.Pairwise.cons ?_ (ih (hid + 1))
    intro q hq
    rcases mem_posPairsOf_key hq with ⟨m, hm, hle⟩
    constructor
    · rw [hm]
      simp only [pvLe, decide_eq_true_eq]
      exact Int.ofNat_le.mpr (Nat.le_of_succ_le hle)
    · rw [hm]
      intro he
      have hnm : Int.ofNat (hid + 1) = Int.ofNat m := PyVal.int.inj he
      have : hid + 1 = m := Int.ofNat.inj hnm
      omega

theorem rootOf_keys (rtk rhk : List String) (us : List IdiUnit) (hid : Nat) :
    (rootOf rtk rhk us hid).map Prod.fst = us.map IdiUnit.name := by
  induction us generalizing hid with
  | nil => rfl
  | cons u rest ih => simp [rootOf, ih]

theorem rootOf_positions_present (rtk rhk : List String) :
    ∀ (us : List IdiUnit) (hid : Nat), UnitsOk rtk rhk us hid →
      ∀ p ∈ rootOf rtk rhk us hid,
        ∃ v vr, getAssoc (nodeAttrs p.2) "POSITION" = some (v :: vr) := by
  intro us
  induction us with
  | nil => intro hid _ p hp; simp [rootOf] at hp
  | cons u rest ih =>
    intro hid hUok p hp
    simp only [UnitsOk] at hUok
    simp only [rootOf] at hp
    rcases List.mem_cons.mp hp with rfl | hp
    · exact ⟨PyVal.int (Int.ofNat (hid + 1)), [],
        exportUnit_ok_position rtk rhk u (hid + 1) hUok.1⟩
    · exact ih (hid + 1) hUok.2 p hp

theorem map_posPair_rootOf (rtk rhk : List String) :
    ∀ (us : List IdiUnit) (hid : Nat), UnitsOk rtk rhk us hid →
      (rootOf rtk rhk us hid).map posPair = posPairsOf us hid := by
  intro us
  induction us with
  | nil => intro hid _; rfl
  | cons u rest ih =>
    intro hid hUok
    simp only [UnitsOk] at hUok
    simp only [rootOf, posPairsOf, List.map_cons]
    rw [ih (hid + 1) hUok.2]
    have hpos := exportUnit_ok_position rtk rhk u (hid + 1) hUok.1
    simp [posPair, hpos]

theorem rootOf_lookup_spec (rtk rhk : List String) :
    ∀ (us : List IdiUnit) (hid : Nat), UnitsOk rtk rhk us hid →
      ((rootOf rtk rhk us hid).map Prod.fst).Nodup →
      ∀ q ∈ posPairsOf us hid,
        ∃ node, getAssoc (rootOf rtk rhk us hid) q.2 = some node ∧
          ∃ v w, readGroup node q.2 = .ok (some v, w) ∧ v.name = q.2 := by
  intro us
  induction us with
  | nil => intro hid _ _ q hq; simp [posPairsOf] at hq
  | cons u rest ih =>
    intro hid hUok hnodup q hq
    simp only [UnitsOk] at hUok
    simp only [posPairsOf] at hq
    simp only [rootOf, List.map_cons, List.nodup_cons] at hnodup
    rcases List.mem_cons.mp hq with rfl | hq
    · refine ⟨(exportUnit rtk rhk u (hid + 1)).1, ?_, ?_⟩
      · simp [rootOf, getAssoc]
      · rcases readGroup_exported rtk rhk u (hid + 1) hUok.1 with ⟨v, w, hrg, hname, _⟩
        exact ⟨v, w, hrg, hname⟩
    · have hq2 : q.2 ∈ (rootOf rtk rhk rest (hid + 1)).map Prod.fst := by
        rw [rootOf_keys, ← posPairsOf_snd rest (hid + 1)]
        exact List.mem_map_of_mem Prod.snd hq
      have hne : u.name ≠ q.2 := fun he => hnodup.1 (he ▸ hq2)
      rcases ih (hid + 1) hUok.2 hnodup.2 q hq with ⟨node, hga, hrest⟩
      refine ⟨node, ?_, hrest⟩
      simp only [rootOf, getAssoc, if_neg hne]
      exact hga

theorem readUnits_ok (root : List (String × HNode)) :
    ∀ (order : List (PyVal × String)) (acc : List IdiUnit) (ws : List String),
      (∀ q ∈ order, ∃ node, getAssoc root q.2 = some node ∧
        ∃ v w, readGroup node q.2 = .ok (some v, w) ∧ v.name = q.2) →
      ∃ units ws', readUnits root order acc ws = (.ok (acc ++ units), ws') ∧
        units.map IdiUnit.name = order.map Prod.snd := by
  intro order
  induction order with
  | nil => intro acc ws _; exact ⟨[], ws, by simp [readUnits], rfl⟩
  | cons q rest ih =>
    intro acc ws h
    rcases h q (List.mem_cons_self q rest) with ⟨node, hnode, v, w, hrg, hname⟩
    obtain ⟨pv, gname⟩ := q
    simp only [readUnits]
    rw [hnode]
    simp only []
    rw [hrg]
    simp only []
    have hany : ((acc ++ [v]).any (fun x => x.name == gname)) = true := by
      simp only [List.any_append, List.any_cons, List.any_nil, Bool.or_false]
      have hb : (v.name == gname) = true := by
        rw [hname]
        simp
      rw [hb]
      simp
    rw [if_pos hany]
    rcases ih (acc ++ [v]) (ws ++ w)
      (fun r hr => h r (List.mem_cons_of_mem _ hr)) with ⟨units, ws', hru, hnames⟩
    refine ⟨v :: units, ws', ?_, ?_⟩
    · rw [hru]
      simp
    · simp only [List.map_cons]
      rw [hnames, hname]

/-! ## Claim C1 -/

/-- C1: Round-trip order.  For every unit list `L` that `export_hdf` writes
successfully, reading the produced container back with `read_hdf` yields the
units in the same name order as `L`.  The order is recovered purely from the
per-group POSITION tags iterated in ascending position order: the theorem
quantifies over an arbitrary permutation `root'` of the container's top-level
child listing, so the result is independent of the container's native group
iteration order. -/
theorem roundtrip_unit_order (rtk rhk : List String) (L : List IdiUnit)
    (hok : (export_hdf rtk rhk (PyArg.hdulist L) none).res = .ok ())
    (f : HFile) (hf : (export_hdf rtk rhk (PyArg.hdulist L) none).file = some f)
    (root' : List (String × HNode)) (hperm : root'.Perm f.root) :
    ∃ units, (read_hdf ⟨f.attrs, root'⟩).res = .ok units ∧
      units.map IdiUnit.name = L.map IdiUnit.name := by
  have hok' : (exportUnits rtk rhk L 0 []).2 = .ok () := hok
  rcases exportUnits_ok_shape rtk rhk L 0 [] hok' with ⟨hsh, hUok⟩
  have hfe : (⟨setAssoc [] "CLASS" [PyVal.str "HDFITS"],
      (exportUnits rtk rhk L 0 []).1⟩ : HFile) = f := Option.some.inj hf
  have hroot : f.root = rootOf rtk rhk L 0 := by
    rw [← hfe]
    show (exportUnits rtk rhk L 0 []).1 = _
    rw [hsh]
    simp
  have hperm' : root'.Perm (rootOf rtk rhk L 0) := hroot ▸ hperm
  have hnodupRoot : ((rootOf rtk rhk L 0).map Prod.fst).Nodup := by
    have := exportUnits_ok_nodup rtk rhk L 0 [] hok' (by simp)
    simpa using this
  have hnodup' : (root'.map Prod.fst).Nodup :=
    ((hperm'.map Prod.fst).nodup_iff).mpr hnodupRoot
  have hpos' : ∀ p ∈ root', ∃ v vr, getAssoc (nodeAttrs p.2) "POSITION" = some (v :: vr) :=
    fun p hp => rootOf_positions_present rtk rhk L 0 hUok p (hperm'.subset hp)
  simp only [read_hdf]
  rw [collectPositions_eq_map root' hpos']
  simp only []
  have hmapperm : (root'.map posPair).Perm (posPairsOf L 0) := by
    have hmp := hperm'.map posPair
    rw [map_posPair_rootOf rtk rhk L 0 hUok] at hmp
    exact hmp
  have hkeysnodup : ((root'.map posPair).map Prod.fst).Nodup := by
    have hn0 : ((posPairsOf L 0).map Prod.fst).Nodup :=
      nodup_keys_of_pairwise_lt (posPairsOf_sorted L 0)
    exact ((hmapperm.map Prod.fst).nodup_iff).mpr hn0
  rw [pyDictItems_eq_of_perm hmapperm hkeysnodup,
    pyDictItems_eq_self (posPairsOf_sorted L 0)]
  have hlookup : ∀ q ∈ posPairsOf L 0, ∃ node, getAssoc root' q.2 = some node ∧
      ∃ v w, readGroup node q.2 = .ok (some v, w) ∧ v.name = q.2 := by
    intro q hq
    rcases rootOf_lookup_spec rtk rhk L 0 hUok hnodupRoot q hq with ⟨node, hga, hrest⟩
    exact ⟨node, (getAssoc_perm hperm' hnodup' q.2).trans hga, hrest⟩
  rcases readUnits_ok root' (posPairsOf L 0) [] _ hlookup with ⟨units, ws', hru, hnames⟩
  rw [hru]
  refine ⟨units, by simp, ?_⟩
  rw [hnames, posPairsOf_snd]

/-- Concrete unit list exercising all three unit kinds. -/
def sampleL : List IdiUnit :=
  [⟨"ZZZ", .primary, [("OBSERVER", .str "X")], none, none⟩,
   ⟨"SRC1", .table
     [⟨"FLUX", .plain [3] [.int 1, .int 2, .int 3], some (.str "Jy")⟩,
      ⟨"AAA", .plain [3] [.int 4, .int 5, .int 6], none⟩], [], none, none⟩,
   ⟨"IMG", .image (.plain [2, 2] [.int 9, .int 1, .int 4, .int 7]), [], none, none⟩]

/-- Container produced by exporting `sampleL`. -/
def sampleFile : HFile :=
  ⟨[("CLASS", [PyVal.str "HDFITS"])],
   [("ZZZ", HNode.group
      [("CLASS", [PyVal.str "HDU"]), ("POSITION", [PyVal.int 1]),
       ("OBSERVER", [PyVal.str "X"]), ("OBSERVER_COMMENT", [PyVal.str ""])] []),
    ("SRC1", HNode.group
      [("CLASS", [PyVal.str "HDU"]), ("POSITION", [PyVal.int 2])]
      [("DATA", HNode.group [("CLASS", [PyVal.str "DATA_GROUP"])]
        [("FLUX", HNode.dataset
           [("CLASS", [PyVal.str "COLUMN"]), ("COLUMN_ID", [PyVal.int 0]),
            ("UNITS", [PyVal.str "Jy"])]
           (HData.plain [3] [PyVal.int 1, PyVal.int 2, PyVal.int 3])),
         ("AAA", HNode.dataset
           [("CLASS", [PyVal.str "COLUMN"]), ("COLUMN_ID", [PyVal.int 1])]
           (HData.plain [3] [PyVal.int 4, PyVal.int 5, PyVal.int 6]))])]),
    ("IMG", HNode.group
      [("CLASS", [PyVal.str "HDU"]), ("POSITION", [PyVal.int 3])]
      [("DATA", HNode.dataset
         [("CLASS", [PyVal.str "IMAGE"]), ("IMAGE_VERSION", [PyVal.str "1.2"]),
          ("IMAGE_SUBCLASS", [PyVal.str "IMAGE_GRAYSCALE"]),
          ("IMAGE_MINMAXRANGE", [PyVal.int 1, PyVal.int 9])]
         (HData.plain [2, 2] [PyVal.int 9, PyVal.int 1, PyVal.int 4, PyVal.int 7]))])]⟩

/-- Witness for C1 at a concrete unit list, reading the container back with
its top-level listing reversed. -/
theorem roundtrip_unit_order_witness :
    ∃ units, (read_hdf ⟨sampleFile.attrs, sampleFile.root.reverse⟩).res = .ok units ∧
      units.map IdiUnit.name = sampleL.map IdiUnit.name :=
  roundtrip_unit_order [] [] sampleL rfl sampleFile rfl
    sampleFile.root.reverse (List.reverse_perm sampleFile.root)

/-! ## Claim C9 -/

/-- C9: Export type precondition.  For an input that is not an
`IdiHdulist`, `export_hdf` raises the `RuntimeError` immediately: the
destination file is never opened (`opened = false`) and its prior contents
are untouched, for every destination state. -/
theorem export_type_precondition (rtk rhk : List String) (d : String) (prior : Option HFile) :
    (export_hdf rtk rhk (PyArg.other d) prior).res
        = .error "This function must be run on an IdiHdulist object" ∧
      (export_hdf rtk rhk (PyArg.other d) prior).opened = false ∧
      (export_hdf rtk rhk (PyArg.other d) prior).file = prior :=
  ⟨rfl, rfl, rfl⟩

/-! ## Claim C10 -/

/-- Image unit on which the export dispatch raises after the destination
has already been opened and truncated: `np.min` of an empty 2-D array. -/
def badImageUnit : IdiUnit := ⟨"E", .image (.plain [0, 2] []), [], none, none⟩

/-- C10: Destination truncation.  Once the type precondition passes,
`export_hdf` opens the destination in truncating mode: the resulting file
contents are identical whatever was previously stored at the destination
(first two conjuncts), and this holds even when the export fails partway —
exporting `badImageUnit` raises, yet the destination still ends up holding
the fresh partially-written container, for every prior state. -/
theorem export_truncates_destination (rtk rhk : List String) (L : List IdiUnit)
    (prior : Option HFile) :
    (export_hdf rtk rhk (PyArg.hdulist L) prior).file
        = (export_hdf rtk rhk (PyArg.hdulist L) none).file ∧
      (export_hdf rtk rhk (PyArg.hdulist L) prior).opened = true ∧
      (export_hdf rtk rhk (PyArg.hdulist [badImageUnit]) prior).res
        = .error "ValueError: zero-size array reduction" ∧
      (export_hdf rtk rhk (PyArg.hdulist [badImageUnit]) prior).file
        = (export_hdf rtk rhk (PyArg.hdulist [badImageUnit]) none).file :=
  ⟨rfl, rfl, rfl, rfl⟩

/-! ## Claim C5 -/

/-- Container whose only top-level group lacks a POSITION attribute. -/
def missingPositionFile : HFile :=
  ⟨[("CLASS", [PyVal.str "HDFITS"])], [("A", HNode.group [("CLASS", [PyVal.str "HDU"])] [])]⟩

/-- C5 counterexample: on a container with a top-level group lacking a
POSITION attribute, `read_hdf` does not warn and continue — it aborts the
whole read with a `KeyError` and emits no warning at all. -/
theorem missing_position_counterexample :
    (read_hdf missingPositionFile).res = .error "KeyError: POSITION of A" ∧
      (read_hdf missingPositionFile).warnings = [] :=
  ⟨rfl, rfl⟩

theorem collectPositions_error_of_missing :
    ∀ (l : List (String × HNode)),
      (∃ p ∈ l, getAssoc (nodeAttrs p.2) "POSITION" = none) →
      ∃ e, collectPositions l = .error e := by
  intro l
  induction l with
  | nil => rintro ⟨p, hp, _⟩; simp at hp
  | cons q rest ih =>
    rintro ⟨p, hp, hnone⟩
    obtain ⟨gname, node⟩ := q
    rcases List.mem_cons.mp hp with rfl | hp
    · exact ⟨_, by simp only [collectPositions]; rw [hnone]⟩
    · cases hga : getAssoc (nodeAttrs node) "POSITION" with
      | none => exact ⟨_, by simp only [collectPositions]; rw [hga]⟩
      | some vs =>
        cases vs with
        | nil => exact ⟨_, by simp only [collectPositions]; rw [hga]⟩
        | cons v vt =>
          rcases ih ⟨p, hp, hnone⟩ with ⟨e, he⟩
          refine ⟨e, ?_⟩
          simp only [collectPositions]
          rw [hga, he]
          rfl

/-- C5 amended: a missing POSITION attribute on a top-level child group is
fatal — `read_hdf` raises the `KeyError` from the position-collection loop
(which has no try/except) and aborts instead of warning and continuing. -/
theorem missing_position_aborts (f : HFile)
    (h : ∃ p ∈ f.root, getAssoc (nodeAttrs p.2) "POSITION" = none) :
    ∃ e, (read_hdf f).res = .error e := by
  rcases collectPositions_error_of_missing f.root h with ⟨e, he⟩
  refine ⟨e, ?_⟩
  simp only [read_hdf]
  rw [he]

/-- Witness for the amended C5 at the concrete container. -/
theorem missing_position_aborts_witness :
    ∃ e, (read_hdf missingPositionFile).res = .error e :=
  missing_position_aborts missingPositionFile
    ⟨("A", HNode.group [("CLASS", [PyVal.str "HDU"])] []), by simp [missingPositionFile], rfl⟩

/-! ## Claim C6 -/

/-- Container whose single unit's DATA node carries the unrecognized
class tag `FOO`. -/
def unknownClassFile : HFile :=
  ⟨[("CLASS", [PyVal.str "HDFITS"])],
   [("A", HNode.group
      [("CLASS", [PyVal.str "HDU"]), ("POSITION", [PyVal.int 1]),
       ("OBSERVER", [PyVal.str "X"])]
      [("DATA", HNode.dataset [("CLASS", [PyVal.str "FOO"])] (.plain [1] [.int 0]))])]⟩

/-- C6: on a DATA node tagged with the unknown class `FOO`, the reader
emits the data-class warning but then crashes: the unrecognized-class
branch attaches no unit, and the trailing debug statement's
`hdulist[gname]` lookup raises `KeyError`, aborting the whole read (with
the handle left open) instead of returning the unit with its header. -/
theorem unknown_data_class_read_crashes :
    (read_hdf unknownClassFile).res = .error "KeyError: A" ∧
      (read_hdf unknownClassFile).warnings = ["Cannot understand data class of A"] ∧
      (read_hdf unknownClassFile).closed = false :=
  ⟨rfl, rfl, rfl⟩

/-! ## Claim C7 -/

/-- C7 counterexample: an export that fails partway (empty 2-D image)
leaves the opened handle unclosed — the failure path does not release the
resource. -/
theorem resource_not_released_counterexample :
    (export_hdf [] [] (PyArg.hdulist [badImageUnit]) none).res
        = .error "ValueError: zero-size array reduction" ∧
      (export_hdf [] [] (PyArg.hdulist [badImageUnit]) none).opened = true ∧
      (export_hdf [] [] (PyArg.hdulist [badImageUnit]) none).closed = false :=
  ⟨rfl, rfl, rfl⟩

theorem read_hdf_closed_iff (f : HFile) :
    (read_hdf f).closed = true ↔ ∃ us, (read_hdf f).res = .ok us := by
  simp only [read_hdf]
  split
  · simp
  · split
    · simp
    · simp

theorem export_hdf_closed_iff (rtk rhk : List String) (arg : PyArg) (prior : Option HFile) :
    (export_hdf rtk rhk arg prior).closed = true
      ↔ (export_hdf rtk rhk arg prior).res = .ok () := by
  cases arg with
  | other d => simp [export_hdf]
  | hdulist units =>
    simp only [export_hdf]
    cases hr : (exportUnits rtk rhk units 0 []).2 with
    | error e => simp
    | ok u => cases u; simp

/-- C7 amended: the handle is released only on normal completion.  Both
`read_hdf` and `export_hdf` close the file exactly when they return
normally; on the failure path the close is skipped (there is no
try/finally), leaving the handle open. -/
theorem resource_release_amended (f : HFile) (rtk rhk : List String) (arg : PyArg)
    (prior : Option HFile) :
    ((∃ us, (read_hdf f).res = .ok us) → (read_hdf f).closed = true) ∧
    ((∃ e, (read_hdf f).res = .error e) → (read_hdf f).closed = false) ∧
    ((export_hdf rtk rhk arg prior).res = .ok () →
      (export_hdf rtk rhk arg prior).closed = true) ∧
    ((∃ e, (export_hdf rtk rhk arg prior).res = .error e) →
      (export_hdf rtk rhk arg prior).closed = false) := by
  refine ⟨fun h => (read_hdf_closed_iff f).mpr h, ?_, ?_, ?_⟩
  · rintro ⟨e, he⟩
    cases hc : (read_hdf f).closed
    · rfl
    · rcases (read_hdf_closed_iff f).mp hc with ⟨us, hus⟩
      exact Except.noConfusion (he.symm.trans hus)
  · exact fun h => (export_hdf_closed_iff rtk rhk arg prior).mpr h
  · rintro ⟨e, he⟩
    cases hc : (export_hdf rtk rhk arg prior).closed
    · rfl
    · have := (export_hdf_closed_iff rtk rhk arg prior).mp hc
      exact Except.noConfusion (he.symm.trans this)

/-- Witness for the amended C7: a successful read closes the handle; a
failing export leaves it open. -/
theorem resource_release_amended_witness :
    (read_hdf ⟨[("CLASS", [PyVal.str "HDFITS"])], []⟩).closed = true ∧
      (export_hdf [] [] (PyArg.hdulist [badImageUnit]) none).closed = false :=
  ⟨(resource_release_amended ⟨[("CLASS", [PyVal.str "HDFITS"])], []⟩ [] []
      (PyArg.hdulist []) none).1 ⟨[], rfl⟩,
   (resource_release_amended ⟨[("CLASS", [PyVal.str "HDFITS"])], []⟩ [] []
      (PyArg.hdulist [badImageUnit]) none).2.2.2
     ⟨"ValueError: zero-size array reduction", rfl⟩⟩

/-! ## Claim C8 -/

theorem export_single_file (rtk rhk : List String) (u : IdiUnit)
    (h : (exportUnit rtk rhk u 1).2 = none) :
    (export_hdf rtk rhk (PyArg.hdulist [u]) none).file
      = some ⟨setAssoc [] "CLASS" [PyVal.str "HDFITS"],
          [(u.name, (exportUnit rtk rhk u 1).1)]⟩ := by
  show some (⟨setAssoc [] "CLASS" [PyVal.str "HDFITS"],
    (exportUnits rtk rhk [u] 0 []).1⟩ : HFile) = _
  rw [exportUnits_cons_ok rtk rhk u [] 0 [] rfl h]
  rfl

/-- Attribute list of the DATA node inside the named top-level group. -/
def dataAttrsOf (f : HFile) (g : String) : Option (List (String × List PyVal)) :=
  match getAssoc f.root g with
  | some (HNode.group _ ch) =>
    match getAssoc ch "DATA" with
    | some n => some (nodeAttrs n)
    | none => none
  | _ => none

/-- DATA-node attributes of a single-unit export. -/
def exportedDataAttrs (rtk rhk : List String) (u : IdiUnit) :
    Option (List (String × List PyVal)) :=
  match (export_hdf rtk rhk (PyArg.hdulist [u]) none).file with
  | some f => dataAttrsOf f u.name
  | none => none

theorem exportedDataAttrs_image (rtk rhk : List String) (nm : String)
    (hdr : List (String × PyVal)) (cm hs : Option (List PyVal)) (arr : HData)
    (himg : (exportImage arr).2 = none) :
    exportedDataAttrs rtk rhk ⟨nm, .image arr, hdr, cm, hs⟩
      = some (nodeAttrs (exportImage arr).1) := by
  have hEU : (exportUnit rtk rhk ⟨nm, .image arr, hdr, cm, hs⟩ 1).2 = none := by
    simp only [exportUnit]
    rw [himg]
  unfold exportedDataAttrs
  rw [export_single_file rtk rhk _ hEU]
  simp only []
  unfold dataAttrsOf
  rw [exportUnit_ok_shape rtk rhk _ 1 hEU]
  have hDATA : getAssoc (addCommentHistory
      (dataChildrenOfUnit (⟨nm, .image arr, hdr, cm, hs⟩ : IdiUnit))
      ⟨nm, .image arr, hdr, cm, hs⟩) "DATA" = some (exportImage arr).1 := by
    rw [getAssoc_addCommentHistory _ _ (by decide) (by decide)]
    simp [dataChildrenOfUnit, getAssoc]
  simp [getAssoc, hDATA]

/-- C8: Image grayscale range attribute.  Exporting a single Image unit
whose array is exactly 2-dimensional writes `IMAGE_SUBCLASS =
IMAGE_GRAYSCALE` and `IMAGE_MINMAXRANGE = (np.min A, np.max A)` on the
DATA dataset; an array of any other dimensionality receives neither
attribute. -/
theorem image_grayscale_range (rtk rhk : List String) (nm : String)
    (hdr : List (String × PyVal)) (cm hs : Option (List PyVal)) (arr : HData)
    (mn mx : PyVal) :
    (ndim arr = 2 → npMin arr = .ok mn → npMax arr = .ok mx →
      ∃ da, exportedDataAttrs rtk rhk ⟨nm, .image arr, hdr, cm, hs⟩ = some da ∧
        getAssoc da "IMAGE_SUBCLASS" = some [PyVal.str "IMAGE_GRAYSCALE"] ∧
        getAssoc da "IMAGE_MINMAXRANGE" = some [mn, mx]) ∧
    (ndim arr ≠ 2 →
      ∃ da, exportedDataAttrs rtk rhk ⟨nm, .image arr, hdr, cm, hs⟩ = some da ∧
        getAssoc da "IMAGE_SUBCLASS" = none ∧
        getAssoc da "IMAGE_MINMAXRANGE" = none) := by
  constructor
  · intro h2 hmin hmax
    have himg2 : (exportImage arr).2 = none := by
      unfold exportImage
      rw [if_pos h2, hmin, hmax]
    have himg1 : (exportImage arr).1 = HNode.dataset
        (setAssoc (setAssoc (setAssoc (setAssoc [] "CLASS" [PyVal.str "IMAGE"])
          "IMAGE_VERSION" [PyVal.str "1.2"]) "IMAGE_SUBCLASS"
          [PyVal.str "IMAGE_GRAYSCALE"]) "IMAGE_MINMAXRANGE" [mn, mx]) arr := by
      unfold exportImage
      rw [if_pos h2, hmin, hmax]
    refine ⟨_, exportedDataAttrs_image rtk rhk nm hdr cm hs arr himg2, ?_, ?_⟩
    · rw [himg1]
      rfl
    · rw [himg1]
      rfl
  · intro h2
    have himg2 : (exportImage arr).2 = none := by
      unfold exportImage
      rw [if_neg h2]
    have himg1 : (exportImage arr).1 = HNode.dataset
        (setAssoc (setAssoc [] "CLASS" [PyVal.str "IMAGE"])
          "IMAGE_VERSION" [PyVal.str "1.2"]) arr := by
      unfold exportImage
      rw [if_neg h2]
    refine ⟨_, exportedDataAttrs_image rtk rhk nm hdr cm hs arr himg2, ?_, ?_⟩
    · rw [himg1]
      rfl
    · rw [himg1]
      rfl

/-- Witness for C8 at a 2×2 array (range (1, 9)) and a 3-dimensional
array (no grayscale attributes). -/
theorem image_grayscale_range_witness :
    (∃ da, exportedDataAttrs [] []
        ⟨"IMG", .image (.plain [2, 2] [.int 9, .int 1, .int 4, .int 7]), [], none, none⟩
        = some da ∧
      getAssoc da "IMAGE_SUBCLASS" = some [PyVal.str "IMAGE_GRAYSCALE"] ∧
      getAssoc da "IMAGE_MINMAXRANGE" = some [PyVal.int 1, PyVal.int 9]) ∧
    (∃ da, exportedDataAttrs [] []
        ⟨"CUBE", .image (.plain [1, 2, 2] [.int 0, .int 0, .int 0, .int 0]), [], none, none⟩
        = some da ∧
      getAssoc da "IMAGE_SUBCLASS" = none ∧
      getAssoc da "IMAGE_MINMAXRANGE" = none) :=
  ⟨(image_grayscale_range [] [] "IMG" [] none none
      (.plain [2, 2] [.int 9, .int 1, .int 4, .int 7])
      (PyVal.int 1) (PyVal.int 9)).1 rfl rfl rfl,
   (image_grayscale_range [] [] "CUBE" [] none none
      (.plain [1, 2, 2] [.int 0, .int 0, .int 0, .int 0])
      (PyVal.int 0) (PyVal.int 0)).2 (by decide)⟩

/-! ## Claim C4 -/

/-- C4 counterexample: in the header `{FOO ↦ 1, FOO_COMMENT ↦ "c"}` the key
`FOO_COMMENT` is TableStructural by the claim's own classification (it ends
in `_COMMENT`), yet after `write_headers` an attribute is stored under
exactly that key: the paired comment attribute written alongside the user
key `FOO`. -/
theorem structural_key_exclusion_counterexample :
    isRestrictedKey [] [] "FOO_COMMENT" = true ∧
      getAssoc (write_headers [] [] []
        [("FOO", PyVal.int 1), ("FOO_COMMENT", PyVal.str "c")]) "FOO_COMMENT"
        = some [PyVal.str "c"] :=
  ⟨rfl, rfl⟩

/-- C4 amended: a TableStructural, BasicStandard or ContainerReserved key is
never written as a group attribute by `write_headers`, except when it is the
paired-comment key `K ++ "_COMMENT"` of a User-class header entry `K` — that
single exception is exactly the paired comment attribute the writer emits. -/
theorem structural_key_exclusion_amended (rtk rhk : List String)
    (A : List (String × List PyVal)) (hdr : List (String × PyVal)) (k : String)
    (hk : isRestrictedKey rtk rhk k = true)
    (hnc : ∀ kv ∈ hdr, isRestrictedKey rtk rhk kv.1 = true ∨ k ≠ kv.1 ++ "_COMMENT") :
    getAssoc (write_headers rtk rhk A hdr) k = getAssoc A k :=
  write_headers_frame hk hnc

/-- Witness for the amended C4: the restricted key `TFIELDS` is untouched
by a write of the user header `{FOO ↦ 1}`. -/
theorem structural_key_exclusion_amended_witness :
    getAssoc (write_headers [] [] [("CLASS", [PyVal.str "HDU"])]
        [("FOO", PyVal.int 1)]) "TFIELDS"
      = getAssoc [("CLASS", [PyVal.str "HDU"])] "TFIELDS" :=
  structural_key_exclusion_amended [] [] [("CLASS", [PyVal.str "HDU"])]
    [("FOO", PyVal.int 1)] "TFIELDS" (by decide) (by decide)

/-! ## Claim C3 -/

/-- C3: Round-trip header.  Writing a unit whose header `H` holds only
User-class keys (no restricted keys, unique keys) and reading the container
back reproduces `H` exactly as `expandHeader H`: every key with its value,
each paired with a `<KEY>_COMMENT` entry holding the empty string (the
comment was absent in `H`, and comes back as `""` rather than being
omitted), and nothing else. -/
theorem roundtrip_user_header (rtk rhk : List String) (nm : String)
    (H : List (String × PyVal))
    (hnodup : (H.map Prod.fst).Nodup)
    (huser : ∀ kv ∈ H, isRestrictedKey rtk rhk kv.1 = false)
    (f : HFile)
    (hf : (export_hdf rtk rhk (PyArg.hdulist [⟨nm, .primary, H, none, none⟩]) none).file
      = some f) :
    ∃ u, (read_hdf f).res = .ok [u] ∧ u.name = nm ∧ u.header = expandHeader H := by
  have hEU : (exportUnit rtk rhk (⟨nm, .primary, H, none, none⟩ : IdiUnit) 1).2 = none := rfl
  have hfe := Option.some.inj ((export_single_file rtk rhk _ hEU).symm.trans hf)
  have hnode0 := exportUnit_ok_shape rtk rhk (⟨nm, .primary, H, none, none⟩ : IdiUnit) 1 hEU
  have hch : addCommentHistory
      (dataChildrenOfUnit (⟨nm, .primary, H, none, none⟩ : IdiUnit))
      (⟨nm, .primary, H, none, none⟩ : IdiUnit) = [] := rfl
  rw [hch] at hnode0
  have hga : setAssoc (setAssoc ([] : List (String × List PyVal)) "CLASS"
      [PyVal.str "HDU"]) "POSITION" [PyVal.int (Int.ofNat 1)]
      = [("CLASS", [PyVal.str "HDU"]), ("POSITION", [PyVal.int (Int.ofNat 1)])] := rfl
  have hcomment : ∀ s, getAssoc H (s ++ "_COMMENT") = none :=
    getAssoc_comment_none (fun kv hkv => not_comment_of_user (huser kv hkv))
  have hfresh : ∀ kv ∈ H,
      hasKey [("CLASS", [PyVal.str "HDU"]), ("POSITION", [PyVal.int (Int.ofNat 1)])] kv.1
          = false ∧
        hasKey [("CLASS", [PyVal.str "HDU"]), ("POSITION", [PyVal.int (Int.ofNat 1)])]
          (kv.1 ++ "_COMMENT") = false := by
    intro kv hkv
    have hhdf := not_hdf_of_user (huser kv hkv)
    have h1 : kv.1 ≠ "CLASS" := by
      intro he
      rw [he] at hhdf
      simp [restricted_hdf_keywords] at hhdf
    have h2 : kv.1 ≠ "POSITION" := by
      intro he
      rw [he] at hhdf
      simp [restricted_hdf_keywords] at hhdf
    have hc1 : "CLASS" ≠ kv.1 ++ "_COMMENT" := ne_append_comment (by decide)
    have hc2 : "POSITION" ≠ kv.1 ++ "_COMMENT" := ne_append_comment (by decide)
    constructor
    · simp [hasKey, Ne.symm h1, Ne.symm h2]
    · simp [hasKey, hc1, hc2]
  have hattrs_eq : write_headers rtk rhk (setAssoc (setAssoc [] "CLASS"
      [PyVal.str "HDU"]) "POSITION" [PyVal.int (Int.ofNat 1)]) H
      = ("CLASS", [PyVal.str "HDU"]) :: ("POSITION", [PyVal.int (Int.ofNat 1)])
        :: expandAttrs H := by
    rw [write_headers_eq_foldl, hga]
    have := write_headers_user_shape rtk rhk H hcomment H _ huser hnodup hfresh
    simpa using this
  have hnode : (exportUnit rtk rhk (⟨nm, .primary, H, none, none⟩ : IdiUnit) 1).1
      = HNode.group (("CLASS", [PyVal.str "HDU"]) :: ("POSITION",
          [PyVal.int (Int.ofNat 1)]) :: expandAttrs H) [] := by
    rw [hnode0, hattrs_eq]
  rw [← hfe]
  have hpos : getAssoc (nodeAttrs (exportUnit rtk rhk
      (⟨nm, .primary, H, none, none⟩ : IdiUnit) 1).1) "POSITION"
      = some [PyVal.int (Int.ofNat 1)] := by
    rw [hnode]
    simp [nodeAttrs, getAssoc]
  simp only [read_hdf]
  have hcp : collectPositions [((⟨nm, .primary, H, none, none⟩ : IdiUnit).name,
      (exportUnit rtk rhk (⟨nm, .primary, H, none, none⟩ : IdiUnit) 1).1)]
      = .ok [(PyVal.int (Int.ofNat 1), nm)] := by
    simp only [collectPositions]
    rw [hpos]
    rfl
  rw [hcp]
  simp only []
  rw [pyDictItems_eq_self (by simp)]
  have hrg : readGroup (exportUnit rtk rhk
      (⟨nm, .primary, H, none, none⟩ : IdiUnit) 1).1 nm
      = .ok (some ⟨nm, .primary, expandHeader H, none, none⟩, []) := by
    rw [hnode]
    simp only [readGroup]
    have hrh : readHVals (("CLASS", [PyVal.str "HDU"]) :: ("POSITION",
        [PyVal.int (Int.ofNat 1)]) :: expandAttrs H) = .ok (expandHeader H) := by
      rw [readHVals_skip (by decide), readHVals_skip (by decide)]
      exact readHVals_expandAttrs huser
    rw [hrh]
    rfl
  have hread : ∀ (ws : List String),
      (readUnits [((⟨nm, .primary, H, none, none⟩ : IdiUnit).name,
        (exportUnit rtk rhk (⟨nm, .primary, H, none, none⟩ : IdiUnit) 1).1)]
        [(PyVal.int (Int.ofNat 1), nm)] [] ws).1
      = .ok [⟨nm, .primary, expandHeader H, none, none⟩] := by
    intro ws
    simp only [readUnits]
    rw [show getAssoc [((⟨nm, .primary, H, none, none⟩ : IdiUnit).name,
      (exportUnit rtk rhk (⟨nm, .primary, H, none, none⟩ : IdiUnit) 1).1)] nm
      = some (exportUnit rtk rhk (⟨nm, .primary, H, none, none⟩ : IdiUnit) 1).1
      from by simp [getAssoc]]
    simp only []
    rw [hrg]
    simp only []
    simp
  refine ⟨⟨nm, .primary, expandHeader H, none, none⟩, ?_, rfl, rfl⟩
  split
  next e ws' heq =>
    exfalso
    have h1 := congrArg Prod.fst heq
    exact Except.noConfusion ((hread _).symm.trans h1)
  next units ws' heq =>
    have h1 := congrArg Prod.fst heq
    have h2 : ([⟨nm, .primary, expandHeader H, none, none⟩] : List IdiUnit) = units :=
      Except.ok.inj ((hread _).symm.trans h1)
    simp only []
    rw [← h2]

/-- Container produced by exporting a primary unit with the user header
`{OBSERVER ↦ "Smith", TELESCOP ↦ "X"}`. -/
def headerSampleFile : HFile :=
  ⟨[("CLASS", [PyVal.str "HDFITS"])],
   [("P", HNode.group
      [("CLASS", [PyVal.str "HDU"]), ("POSITION", [PyVal.int 1]),
       ("OBSERVER", [PyVal.str "Smith"]), ("OBSERVER_COMMENT", [PyVal.str ""]),
       ("TELESCOP", [PyVal.str "X"]), ("TELESCOP_COMMENT", [PyVal.str ""])] [])]⟩

/-- Witness for C3 at a concrete two-key user header. -/
theorem roundtrip_user_header_witness :
    ∃ u, (read_hdf headerSampleFile).res = .ok [u] ∧ u.name = "P" ∧
      u.header = expandHeader [("OBSERVER", PyVal.str "Smith"), ("TELESCOP", PyVal.str "X")] :=
  roundtrip_user_header [] [] "P"
    [("OBSERVER", PyVal.str "Smith"), ("TELESCOP", PyVal.str "X")]
    (by decide) (by decide) headerSampleFile rfl

/-! ## Claim C2 -/

/-- Children of the DATA group inside the named top-level group. -/
def dataChildren (f : HFile) (g : String) : List (String × HNode) :=
  match getAssoc f.root g with
  | some (HNode.group _ ch) =>
    match getAssoc ch "DATA" with
    | some (HNode.group _ dch) => dch
    | _ => []
  | _ => []

/-- The same container with the named unit's DATA-group child listing
replaced (modelling a container whose native child enumeration order
differs). -/
def setDataChildren (f : HFile) (g : String) (dch : List (String × HNode)) : HFile :=
  ⟨f.attrs, f.root.map (fun p =>
    if p.1 = g then
      (p.1, match p.2 with
        | HNode.group ga ch => HNode.group ga (ch.map (fun q =>
            if q.1 = "DATA" then
              (q.1, match q.2 with
                | HNode.group da _ => HNode.group da dch
                | n => n)
            else q))
        | n => n)
    else p)⟩

theorem map_replaceData_addCH (u : IdiUnit) (dga : List (String × List PyVal))
    (X dch : List (String × HNode)) :
    (addCommentHistory [("DATA", HNode.group dga X)] u).map (fun q =>
      if q.1 = "DATA" then
        (q.1, match q.2 with
          | HNode.group da _ => HNode.group da dch
          | n => n)
      else q)
    = addCommentHistory [("DATA", HNode.group dga dch)] u := by
  simp only [addCommentHistory]
  by_cases h2 : pyTruthyList u.history = true <;>
    by_cases h1 : pyTruthyList u.comment = true <;>
    simp only [if_pos, if_neg, h1, h2, List.map_append, List.map_cons, List.map_nil] <;>
    simp

/-- Read-back of an exported table group whose DATA children have been
arbitrarily permuted: the reader still reconstructs the columns in the
original order, keyed by ascending COLUMN_ID. -/
theorem readGroup_table_perm (rtk rhk : List String) (u : IdiUnit) (pos : Nat)
    (cols : List IdiColumn)
    (hnodup : ((colNodesOf cols 0).map Prod.fst).Nodup)
    (ch' : List (String × HNode)) (hperm : ch'.Perm (colNodesOf cols 0)) :
    ∃ v cols', readGroup (HNode.group
        (write_headers rtk rhk (setAssoc (setAssoc [] "CLASS" [PyVal.str "HDU"])
          "POSITION" [PyVal.int (Int.ofNat pos)]) u.header)
        (addCommentHistory [("DATA", HNode.group (setAssoc [] "CLASS"
          [PyVal.str "DATA_GROUP"]) ch')] u)) u.name
      = .ok (some v, []) ∧ v.name = u.name ∧ v.hdu = .table cols' ∧
      cols'.map IdiColumn.name = cols.map IdiColumn.name := by
  have hattrs := write_headers_values_ne_nil rtk rhk u.header (hduAttrs_values_ne_nil pos)
  rcases readHVals_ok_of_values_ne_nil _ hattrs with ⟨hv, hhv⟩
  have hnodup' : (ch'.map Prod.fst).Nodup := ((hperm.map Prod.fst).nodup_iff).mpr hnodup
  simp only [readGroup]
  rw [hhv]
  have hdata : getAssoc (addCommentHistory [("DATA", HNode.group (setAssoc [] "CLASS"
      [PyVal.str "DATA_GROUP"]) ch')] u) "DATA"
      = some (HNode.group (setAssoc [] "CLASS" [PyVal.str "DATA_GROUP"]) ch') := by
    rw [getAssoc_addCommentHistory _ _ (by decide) (by decide)]
    simp [getAssoc]
  rw [hdata]
  simp only []
  have hclass : getAssoc (nodeAttrs (HNode.group (setAssoc [] "CLASS"
      [PyVal.str "DATA_GROUP"]) ch')) "CLASS" = some [PyVal.str "DATA_GROUP"] := rfl
  rw [hclass]
  simp only []
  have hpresent : ∀ p ∈ ch', ∃ v vr, getAssoc (nodeAttrs p.2) "COLUMN_ID" = some (v :: vr) :=
    fun p hp => colNodesOf_colid_present cols 0 p (hperm.subset hp)
  rw [collectColIds_eq_map ch' hpresent]
  simp only []
  have hmapperm : (ch'.map colIdPair).Perm (idPairsOf cols 0) := by
    have hmp := hperm.map colIdPair
    rw [map_colIdPair_colNodesOf] at hmp
    exact hmp
  have hkeysnodup : ((ch'.map colIdPair).map Prod.fst).Nodup := by
    have hn0 : ((idPairsOf cols 0).map Prod.fst).Nodup :=
      nodup_keys_of_pairwise_lt (idPairsOf_sorted cols 0)
    exact ((hmapperm.map Prod.fst).nodup_iff).mpr hn0
  rw [pyDictItems_eq_of_perm hmapperm hkeysnodup,
    pyDictItems_eq_self (idPairsOf_sorted cols 0)]
  have hspec : ∀ q ∈ idPairsOf cols 0, ∃ a d, getAssoc ch' q.2 = some (HNode.dataset a d) ∧
      ∃ v vr, getAssoc a "COLUMN_ID" = some (v :: vr) := by
    intro q hq
    rcases colNodes_lookup_spec cols 0 hnodup q hq with ⟨a, d, hga, hrest⟩
    exact ⟨a, d, (getAssoc_perm hperm hnodup' q.2).trans hga, hrest⟩
  rcases readGroupCols_names ch' (idPairsOf cols 0) hspec with ⟨cols', hrc, hnames⟩
  rw [hrc]
  refine ⟨_, cols', rfl, rfl, rfl, ?_⟩
  rw [hnames, idPairsOf_snd]

/-- C2: Column order preservation (per-column DATA_GROUP layout).  For
every Table unit written successfully by `export_hdf`, reading back with
`read_hdf` yields the columns in the original order, determined by sorting
the COLUMN_ID attributes ascending — for an arbitrary permutation `ch'` of
the DATA group's native child listing. -/
theorem roundtrip_column_order (rtk rhk : List String) (nm : String)
    (hdr : List (String × PyVal)) (cm hs : Option (List PyVal)) (cols : List IdiColumn)
    (hok : (export_hdf rtk rhk (PyArg.hdulist [⟨nm, .table cols, hdr, cm, hs⟩]) none).res
      = .ok ())
    (f : HFile)
    (hf : (export_hdf rtk rhk (PyArg.hdulist [⟨nm, .table cols, hdr, cm, hs⟩]) none).file
      = some f)
    (ch' : List (String × HNode)) (hperm : ch'.Perm (dataChildren f nm)) :
    ∃ v cols', (read_hdf (setDataChildren f nm ch')).res = .ok [v] ∧
      v.name = nm ∧ v.hdu = .table cols' ∧
      cols'.map IdiColumn.name = cols.map IdiColumn.name := by
  have hok' : (exportUnits rtk rhk [⟨nm, .table cols, hdr, cm, hs⟩] 0 []).2 = .ok () := hok
  have hEU : (exportUnit rtk rhk (⟨nm, .table cols, hdr, cm, hs⟩ : IdiUnit) 1).2 = none := by
    rcases h2 : (exportUnit rtk rhk (⟨nm, .table cols, hdr, cm, hs⟩ : IdiUnit) 1).2 with _ | e
    · rfl
    · rw [exportUnits_cons_err rtk rhk _ [] 0 [] rfl h2] at hok'
      exact Except.noConfusion hok'
  have hcols_ok : (exportColumns cols 0 []).2 = none := by
    simp only [exportUnit] at hEU
    rcases h2 : (exportColumns cols 0 []).2 with _ | e
    · rfl
    · rw [h2] at hEU
      exact Option.noConfusion hEU
  have hnodupC : ((colNodesOf cols 0).map Prod.fst).Nodup := by
    have := exportColumns_ok_nodup cols 0 [] hcols_ok (by simp)
    simpa using this
  have hshape : (exportColumns cols 0 []).1 = colNodesOf cols 0 := by
    have := exportColumns_ok_shape cols 0 [] hcols_ok
    simpa using this
  have hfe := Option.some.inj ((export_single_file rtk rhk _ hEU).symm.trans hf)
  have hnode := exportUnit_ok_shape rtk rhk (⟨nm, .table cols, hdr, cm, hs⟩ : IdiUnit) 1 hEU
  have hdcu : dataChildrenOfUnit (⟨nm, .table cols, hdr, cm, hs⟩ : IdiUnit)
      = [("DATA", HNode.group (setAssoc [] "CLASS" [PyVal.str "DATA_GROUP"])
          (colNodesOf cols 0))] := by
    simp [dataChildrenOfUnit, hshape]
  rw [hdcu] at hnode
  have hDATA : getAssoc (addCommentHistory [("DATA", HNode.group (setAssoc [] "CLASS"
      [PyVal.str "DATA_GROUP"]) (colNodesOf cols 0))]
      (⟨nm, .table cols, hdr, cm, hs⟩ : IdiUnit)) "DATA"
      = some (HNode.group (setAssoc [] "CLASS" [PyVal.str "DATA_GROUP"])
          (colNodesOf cols 0)) := by
    rw [getAssoc_addCommentHistory _ _ (by decide) (by decide)]
    simp [getAssoc]
  have hdc : dataChildren f nm = colNodesOf cols 0 := by
    rw [← hfe]
    unfold dataChildren
    rw [hnode]
    simp [getAssoc, hDATA]
  have hperm' : ch'.Perm (colNodesOf cols 0) := hdc ▸ hperm
  have hsdc : setDataChildren f nm ch' = ⟨setAssoc [] "CLASS" [PyVal.str "HDFITS"],
      [(nm, HNode.group (write_headers rtk rhk (setAssoc (setAssoc [] "CLASS"
          [PyVal.str "HDU"]) "POSITION" [PyVal.int (Int.ofNat 1)])
          (⟨nm, .table cols, hdr, cm, hs⟩ : IdiUnit).header)
        (addCommentHistory [("DATA", HNode.group (setAssoc [] "CLASS"
          [PyVal.str "DATA_GROUP"]) ch')] (⟨nm, .table cols, hdr, cm, hs⟩ : IdiUnit)))]⟩ := by
    rw [← hfe]
    unfold setDataChildren
    congr 1
    simp only [List.map_cons, List.map_nil]
    simp only [if_true]
    rw [hnode]
    simp only []
    rw [map_replaceData_addCH]
  rcases readGroup_table_perm rtk rhk (⟨nm, .table cols, hdr, cm, hs⟩ : IdiUnit) 1 cols
    hnodupC ch' hperm' with ⟨v, cols', hrg, hvname, hvhdu, hnames⟩
  rw [hsdc]
  have hpos : getAssoc (nodeAttrs (HNode.group (write_headers rtk rhk
      (setAssoc (setAssoc [] "CLASS" [PyVal.str "HDU"]) "POSITION"
        [PyVal.int (Int.ofNat 1)]) (⟨nm, .table cols, hdr, cm, hs⟩ : IdiUnit).header)
      (addCommentHistory [("DATA", HNode.group (setAssoc [] "CLASS"
        [PyVal.str "DATA_GROUP"]) ch')] (⟨nm, .table cols, hdr, cm, hs⟩ : IdiUnit))))
      "POSITION" = some [PyVal.int (Int.ofNat 1)] := by
    show getAssoc (write_headers rtk rhk _ _) "POSITION" = _
    rw [write_headers_frame_nc (isRestrictedKey_position rtk rhk) (by decide),
      getAssoc_setAssoc_self]
  simp only [read_hdf]
  have hcp : collectPositions [(nm, HNode.group (write_headers rtk rhk
      (setAssoc (setAssoc [] "CLASS" [PyVal.str "HDU"]) "POSITION"
        [PyVal.int (Int.ofNat 1)]) (⟨nm, .table cols, hdr, cm, hs⟩ : IdiUnit).header)
      (addCommentHistory [("DATA", HNode.group (setAssoc [] "CLASS"
        [PyVal.str "DATA_GROUP"]) ch')] (⟨nm, .table cols, hdr, cm, hs⟩ : IdiUnit)))]
      = .ok [(PyVal.int (Int.ofNat 1), nm)] := by
    simp only [collectPositions]
    rw [hpos]
    rfl
  rw [hcp]
  simp only []
  rw [pyDictItems_eq_self (by simp)]
  have hvname' : v.name = nm := hvname
  have hread : ∀ (ws : List String),
      (readUnits [(nm, HNode.group (write_headers rtk rhk
        (setAssoc (setAssoc [] "CLASS" [PyVal.str "HDU"]) "POSITION"
          [PyVal.int (Int.ofNat 1)]) (⟨nm, .table cols, hdr, cm, hs⟩ : IdiUnit).header)
        (addCommentHistory [("DATA", HNode.group (setAssoc [] "CLASS"
          [PyVal.str "DATA_GROUP"]) ch')] (⟨nm, .table cols, hdr, cm, hs⟩ : IdiUnit)))]
        [(PyVal.int (Int.ofNat 1), nm)] [] ws).1 = .ok [v] := by
    intro ws
    simp only [readUnits]
    rw [show getAssoc [(nm, HNode.group (write_headers rtk rhk
        (setAssoc (setAssoc [] "CLASS" [PyVal.str "HDU"]) "POSITION"
          [PyVal.int (Int.ofNat 1)]) (⟨nm, .table cols, hdr, cm, hs⟩ : IdiUnit).header)
        (addCommentHistory [("DATA", HNode.group (setAssoc [] "CLASS"
          [PyVal.str "DATA_GROUP"]) ch')] (⟨nm, .table cols, hdr, cm, hs⟩ : IdiUnit)))] nm
      = some (HNode.group (write_headers rtk rhk
        (setAssoc (setAssoc [] "CLASS" [PyVal.str "HDU"]) "POSITION"
          [PyVal.int (Int.ofNat 1)]) (⟨nm, .table cols, hdr, cm, hs⟩ : IdiUnit).header)
        (addCommentHistory [("DATA", HNode.group (setAssoc [] "CLASS"
          [PyVal.str "DATA_GROUP"]) ch')] (⟨nm, .table cols, hdr, cm, hs⟩ : IdiUnit)))
      from by simp [getAssoc]]
    simp only []
    rw [hrg]
    simp only []
    simp [hvname']
  refine ⟨v, cols', ?_, hvname', hvhdu, hnames⟩
  split
  next e ws' heq =>
    exfalso
    have h1 := congrArg Prod.fst heq
    exact Except.noConfusion ((hread _).symm.trans h1)
  next units ws' heq =>
    have h1 := congrArg Prod.fst heq
    have h2 : ([v] : List IdiUnit) = units := Except.ok.inj ((hread _).symm.trans h1)
    simp only []
    rw [← h2]

/-- Columns of the concrete witness table. -/
def tableSampleCols : List IdiColumn :=
  [⟨"FLUX", .plain [3] [.int 1, .int 2, .int 3], some (.str "Jy")⟩,
   ⟨"AAA", .plain [3] [.int 4, .int 5, .int 6], none⟩]

/-- Container produced by exporting the single witness table. -/
def tableSampleFile : HFile :=
  ⟨[("CLASS", [PyVal.str "HDFITS"])],
   [("SRC1", HNode.group
      [("CLASS", [PyVal.str "HDU"]), ("POSITION", [PyVal.int 1])]
      [("DATA", HNode.group [("CLASS", [PyVal.str "DATA_GROUP"])]
        [("FLUX", HNode.dataset
           [("CLASS", [PyVal.str "COLUMN"]), ("COLUMN_ID", [PyVal.int 0]),
            ("UNITS", [PyVal.str "Jy"])]
           (HData.plain [3] [PyVal.int 1, PyVal.int 2, PyVal.int 3])),
         ("AAA", HNode.dataset
           [("CLASS", [PyVal.str "COLUMN"]), ("COLUMN_ID", [PyVal.int 1])]
           (HData.plain [3] [PyVal.int 4, PyVal.int 5, PyVal.int 6]))])])]⟩

/-- Witness for C2 at a concrete two-column table, with the DATA group's
child listing reversed. -/
theorem roundtrip_column_order_witness :
    ∃ v cols', (read_hdf (setDataChildren tableSampleFile "SRC1"
        (dataChildren tableSampleFile "SRC1").reverse)).res = .ok [v] ∧
      v.name = "SRC1" ∧ v.hdu = .table cols' ∧
      cols'.map IdiColumn.name = tableSampleCols.map IdiColumn.name :=
  roundtrip_column_order [] [] "SRC1" [] none none tableSampleCols rfl
    tableSampleFile rfl (dataChildren tableSampleFile "SRC1").reverse
    (List.reverse_perm (dataChildren tableSampleFile "SRC1"))
